import Mathlib

/-
  Verification development for the CloudBot plugin manager
  (src/cloudbot/plugin.py).

  The development shallowly embeds the dispatch pipeline
  (PluginManager._prepare_parameters, _execute_hook_threaded,
  _execute_hook_sync, internal_launch, _execute_hook, _sieve, launch),
  the registration state of the manager (load_plugin / unload_plugin,
  plugin.py lines 139 to 397) and the single_thread serializer protocol
  (launch, lines 558 to 596) as executable Lean definitions, and proves
  the specified properties about them.
-/

set_option linter.unusedVariables false

namespace CB

/-- Python runtime values, modelling the dynamic value domain of the
interpreter as far as the dispatch pipeline inspects it.  The pipeline only
ever distinguishes the singleton None, booleans (the post hook loop in
_execute_hook tests identity with False), integers and strings; every other
object an actual hook could return behaves like an opaque value and can be
represented by a string tag without loss for the properties proved here. -/
inductive PyVal where
  | none
  | bool (b : Bool)
  | int (n : Int)
  | str (s : String)
  deriving DecidableEq

/-- Association list lookup, mirroring a Python dict read.  Python dict keys
are unique, so returning the first match is exact. -/
def alookup {α β : Type} [DecidableEq α] (k : α) : List (α × β) → Option β
  | [] => Option.none
  | (a, b) :: rest => if a = k then some b else alookup k rest

/-- Association list write, mirroring a Python dict item assignment: the
first entry with the key is replaced, otherwise the entry is appended. -/
def aset {α β : Type} [DecidableEq α] (k : α) (v : β) : List (α × β) → List (α × β)
  | [] => [(k, v)]
  | (a, b) :: rest => if a = k then (k, v) :: rest else (a, b) :: aset k v rest

/-- Association list deletion, mirroring the Python del statement on a dict
entry: the first entry with the key is dropped. -/
def adel {α β : Type} [DecidableEq α] (k : α) : List (α × β) → List (α × β)
  | [] => []
  | (a, b) :: rest => if a = k then rest else (a, b) :: adel k rest

/-- Modelled from the spec: the Event class lives in cloudbot/event.py, which
is not part of the sources; the spec describes it as an object that can
report, by name, the set of context values a hook may request, and that
exposes scoped setup and teardown calls (prepare_threaded / close_threaded
for blocking hooks, prepare / close for cooperative hooks).  The attribute
surface is embedded as a finite name-to-value map; the scoped calls are
recorded in the execution trace of the functions that perform them. -/
structure Event where
  attrs : List (String × PyVal)
  deriving DecidableEq

/-- Hook record as built by cloudbot.plugin.Hook.__init__ (plugin.py lines
670 to 702), restricted to the fields the dispatch pipeline reads: the owning
plugin title, the function name, the hook type string, the list of required
argument names taken from the callable signature, the callable itself and the
threaded flag.  The callable is embedded as a function from the bound
parameter list to either a returned value or a raised exception (represented
by its message). -/
structure Hook where
  plugin_title : String
  function_name : String
  type : String
  required_args : List String
  function : List PyVal → Except String PyVal
  threaded : Bool

/-- Steps through the scoped resource protocol of an Event, recorded by the
execution models so that pairing of setup and teardown can be stated. -/
inductive EvAction where
  | prepare_threaded
  | close_threaded
  | prepare_sync
  | close_sync
  | invoke
  deriving DecidableEq

/-- Model of PluginManager._prepare_parameters (plugin.py lines 409 to 427):
walk the required argument names of the hook; if the event has the attribute
append its value, otherwise log and return None. -/
def bind_args : List String → Event → Option (List PyVal)
  | [], _ => some []
  | a :: rest, event =>
    match alookup a event.attrs with
    | some v =>
      match bind_args rest event with
      | some ps => some (v :: ps)
      | Option.none => Option.none
    | Option.none => Option.none

/-- Entry point matching the source method name. -/
def prepare_parameters (hook : Hook) (event : Event) : Option (List PyVal) :=
  bind_args hook.required_args event

/-- Model of PluginManager._execute_hook_threaded (plugin.py lines 429 to
443).  The source first calls event.prepare_threaded(), then binds
parameters; when binding fails it returns None immediately (no try block is
active yet, so close_threaded does not run); otherwise it calls the hook
function inside try/finally, so close_threaded runs whether the call returns
or raises.  The first component is the returned value or the raised
exception propagating out; the second is the trace of scoped actions. -/
def execute_hook_threaded (hook : Hook) (event : Event) :
    Except String PyVal × List EvAction :=
  match prepare_parameters hook event with
  | Option.none => (Except.ok PyVal.none, [EvAction.prepare_threaded])
  | some ps =>
    (hook.function ps,
      [EvAction.prepare_threaded, EvAction.invoke, EvAction.close_threaded])

/-- Model of PluginManager._execute_hook_sync (plugin.py lines 445 to 460),
identical in structure to the threaded path but using the cooperative
prepare / close pair of the event. -/
def execute_hook_sync (hook : Hook) (event : Event) :
    Except String PyVal × List EvAction :=
  match prepare_parameters hook event with
  | Option.none => (Except.ok PyVal.none, [EvAction.prepare_sync])
  | some ps =>
    (hook.function ps,
      [EvAction.prepare_sync, EvAction.invoke, EvAction.close_sync])

/-- Outcome value carried out of internal_launch: either the value returned
by the execution path or the exception object it raised. -/
inductive LaunchResult where
  | value (v : PyVal)
  | err (e : String)
  deriving DecidableEq

/-- Model of PluginManager.internal_launch (plugin.py lines 462 to 479): run
the threaded or the sync execution path according to hook.threaded; an
exception escaping the path is caught and returned as (False, e); a normal
return value out is returned as (True, out). -/
def internal_launch (hook : Hook) (event : Event) :
    (Bool × LaunchResult) × List EvAction :=
  let rt :=
    if hook.threaded then execute_hook_threaded hook event
    else execute_hook_sync hook event
  match rt.1 with
  | Except.ok v => ((true, LaunchResult.value v), rt.2)
  | Except.error e => ((false, LaunchResult.err e), rt.2)

/-- Fields of the PostHookEvent constructed by _execute_hook (plugin.py
lines 499 to 502) that depend on the launch outcome: result and error start
as None and exactly one of them receives the outcome. -/
structure PostHookEvent where
  result : Option LaunchResult
  error : Option LaunchResult
  deriving DecidableEq

/-- Behaviour of one registered post hook, as observed through
internal_launch at the call site in _execute_hook: launching the post hook
on the post event yields either (success = True, res = returned value) or
(success = False, res = exception), embedded as an Except value. -/
abbrev PostFun := PostHookEvent → Except String PyVal

/-- Break condition of the post hook loop in _execute_hook (plugin.py line
505): success and res is False.  Python identity with the False singleton
holds exactly for the boolean value False; no other value (None, 0, empty
containers) is identical to False. -/
def is_suppress (r : Except String PyVal) : Bool :=
  match r with
  | Except.ok (PyVal.bool false) => true
  | _ => false

/-- Model of the post hook loop of _execute_hook (plugin.py lines 503 to
506): post hooks fire in list order; after a firing whose outcome satisfies
the break condition the loop stops.  The returned list is the sequence of
outcomes of the post hooks that actually fired, in firing order. -/
def run_post_hooks (posts : List PostFun) (pe : PostHookEvent) :
    List (Except String PyVal) :=
  match posts with
  | [] => []
  | ph :: rest =>
    let r := ph pe
    if is_suppress r then [r] else r :: run_post_hooks rest pe

/-- Model of PluginManager._execute_hook (plugin.py lines 482 to 508):
launch the hook, classify the outcome into the result / error fields of the
post hook event, fire the post hook chain, and return the ok boolean.
Returns (ok, the constructed post event, outcomes of fired post hooks, the
scoped action trace of the execution path). -/
def execute_hook (posts : List PostFun) (hook : Hook) (event : Event) :
    Bool × PostHookEvent × List (Except String PyVal) × List EvAction :=
  let r := internal_launch hook event
  let ok := r.1.1
  let out := r.1.2
  let pe : PostHookEvent :=
    if ok then { result := some out, error := Option.none }
    else { result := Option.none, error := some out }
  (ok, pe, run_post_hooks posts pe, r.2)

/-- Behaviour of one sieve callable on the event and target hook it
receives: it either returns (a transformed event, or None meaning reject) or
raises. -/
inductive SieveOut where
  | result (r : Option Event)
  | raises (e : String)

/-- Type of sieve behaviours; the bot argument of the source callable is
invariant over a dispatch and is elided. -/
abbrev SieveFun := Event → Hook → SieveOut

/-- Model of PluginManager._sieve (plugin.py lines 510 to 527): run the
sieve callable; an exception is caught, logged and turned into None, which
the caller treats as rejection; otherwise the returned value passes
through. -/
def sieve_one (s : SieveFun) (event : Event) (hook : Hook) : Option Event :=
  match s event hook with
  | SieveOut.raises _ => Option.none
  | SieveOut.result r => r

/-- Model of the sieve loop in launch (plugin.py lines 552 to 556): thread
the event through every sieve in order; stop at the first None. -/
def sieve_chain : List SieveFun → Hook → Event → Option Event
  | [], _, event => some event
  | s :: rest, hook, event =>
    match sieve_one s event hook with
    | Option.none => Option.none
    | some ev => sieve_chain rest hook ev

/-- Hook types for which launch skips the sieve stage (plugin.py line
552). -/
def lifecycle_types : List String := ["on_start", "on_stop", "periodic"]

/-- Model of PluginManager.launch (plugin.py lines 540 to 596) for one
dispatch: the sieve stage runs unless the hook type is a lifecycle type and
returns False on rejection before the hook is reached; then _execute_hook
runs and its ok boolean is returned.  The single_thread serializer gate
(lines 558 to 590) is modelled separately as a transition system below; both
branches of that gate run _execute_hook once and fall through to return its
result, so the returned value of launch does not depend on it.  Returns
(result, outcomes of fired post hooks, scoped action trace); on sieve
rejection the hook body never starts, so both traces are empty. -/
def launch (sieves : List SieveFun) (posts : List PostFun) (hook : Hook)
    (event : Event) : Bool × List (Except String PyVal) × List EvAction :=
  if hook.type ∈ lifecycle_types then
    let r := execute_hook posts hook event
    (r.1, r.2.2.1, r.2.2.2)
  else
    match sieve_chain sieves hook event with
    | Option.none => (false, [], [])
    | some ev =>
      let r := execute_hook posts hook ev
      (r.1, r.2.2.1, r.2.2.2)

/-- Registration-level record of a sieve or connect hook: the fields of
cloudbot.plugin.Hook that the index structures and the sort stage read. -/
structure BaseHook where
  plugin : String
  function_name : String
  priority : Int
  deriving DecidableEq

/-- Registration-level record of a CommandHook (plugin.py lines 718 to 745):
the alias list is already lower-cased with the main alias in position 0. -/
structure CommandHook where
  plugin : String
  function_name : String
  priority : Int
  aliases : List String
  deriving DecidableEq

/-- Registration-level record of a RawHook (plugin.py lines 796 to 817). -/
structure RawHook where
  plugin : String
  function_name : String
  priority : Int
  triggers : List String
  deriving DecidableEq

/-- Model of RawHook.is_catch_all (plugin.py lines 810 to 811): the hook is
catch-all exactly when the literal star is among its triggers. -/
def RawHook.is_catch_all (h : RawHook) : Bool :=
  decide ("*" ∈ h.triggers)

/-- Registration-level record of a CapHook (plugin.py lines 883 to 902). -/
structure CapHook where
  plugin : String
  function_name : String
  priority : Int
  caps : List String
  deriving DecidableEq

/-- Model of str.casefold as used on capability names (plugin.py lines 204,
209, 321, 329); full Unicode case folding is irrelevant to the claims, so
ASCII lowering stands in for it. -/
def casefold (s : String) : String :=
  String.mk (s.data.map (fun c =>
    if 65 ≤ c.toNat ∧ c.toNat ≤ 90 then Char.ofNat (c.toNat + 32) else c))

/-- Stable insertion into a priority-ordered list: the new element goes
after every element whose priority is less than or equal to its own. -/
def insort {α : Type} (pri : α → Int) (x : α) : List α → List α
  | [] => [x]
  | y :: ys => if pri x < pri y then x :: y :: ys else y :: insort pri x ys

/-- Model of the Python list.sort(key=...) calls of the sort stage
(plugin.py lines 279 to 290): Python list.sort is an ascending stable sort
on the key; inserting each element of the list in order into an accumulator
after its equals realizes exactly that specification. -/
def py_sort {α : Type} (pri : α → Int) (l : List α) : List α :=
  l.foldl (fun acc x => insort pri x acc) []

/-- Sorting applied to every value list of a dict, as the sort stage does
for the dict-of-list index structures via chain.from_iterable. -/
def sort_values {α β : Type} [DecidableEq α] (pri : β → Int)
    (m : List (α × List β)) : List (α × List β) :=
  m.map (fun kv => (kv.1, py_sort pri kv.2))

/-- Append of one hook under one key into a dict of lists, mirroring both
the defaultdict append used for the cap dicts and the explicit
if-in-append-else-create used for raw_triggers and event_type_hooks. -/
def append_value {α β : Type} [DecidableEq α] (m : List (α × List β)) (k : α)
    (v : β) : List (α × List β) :=
  match alookup k m with
  | some l => aset k (l ++ [v]) m
  | Option.none => m ++ [(k, [v])]

/-- Removal of one hook under one key from a dict of lists, with deletion of
the key when its list becomes empty, mirroring the unload code for the cap
dicts (plugin.py lines 318 to 332), raw_triggers (lines 342 to 350) and
event_type_hooks (lines 353 to 358). -/
def remove_value {α β : Type} [DecidableEq α] [DecidableEq β]
    (m : List (α × List β)) (k : α) (v : β) : List (α × List β) :=
  match alookup k m with
  | some l =>
    let l2 := l.erase v
    if l2 = [] then adel k m else aset k l2 m
  | Option.none => m

/-- Plugin record (plugin.py lines 599 to 625) restricted to the hook kinds
and tables the modelled index structures hold.  The on_start hooks are
dispatch-level records because load_plugin executes them through launch;
every other kind is a registration-level record.  Tables are identified by
name; distinct Table objects of distinct modules are distinct. -/
structure Plugin where
  file_path : String
  title : String
  on_start_hooks : List Hook
  cap_available_hooks : List CapHook
  cap_ack_hooks : List CapHook
  command_hooks : List CommandHook
  raw_hooks : List RawHook
  sieve_hooks : List BaseHook
  connect_hooks : List BaseHook
  tables : List String

/-- The index structures of the PluginManager (plugin.py lines 93 to 106)
that the claims are about.  plugins is the owning identity table keyed by
file path; plugin_name_map models the keys of the weak title lookup;
commands maps each alias to its single owning hook; raw_triggers and the cap
dicts are dicts of lists; catch_all_triggers, sieves and connect_hooks are
flat lists; tables models the shared sqlalchemy metadata registry. -/
structure ManagerState where
  plugins : List (String × Plugin)
  plugin_name_map : List String
  commands : List (String × CommandHook)
  raw_triggers : List (String × List RawHook)
  catch_all_triggers : List RawHook
  cap_available : List (String × List CapHook)
  cap_ack : List (String × List CapHook)
  sieves : List BaseHook
  connect_hooks : List BaseHook
  tables : List String

/-- Modelled from the spec: the context-only event built for lifecycle hooks
(Event(bot=self.bot, hook=on_start_hook), plugin.py line 191) exposes the
bot context values by name and no protocol connection; the Event class
itself is outside the sources.  The exact attribute set does not matter to
the claims, only that it is a fixed finite name-to-value map. -/
def lifecycle_event (h : Hook) : Event :=
  { attrs := [("bot", PyVal.str "bot"), ("hook", PyVal.str h.function_name),
              ("event", PyVal.str "event"), ("loop", PyVal.str "loop")] }

/-- Model of the on_start loop of load_plugin (plugin.py lines 190 to 197):
each on_start hook is launched in order; the loop reports failure as soon as
one launch returns False.  The manager sieve list is not consulted because
launch skips the sieve stage for on_start hooks, and the post hook chain
cannot change the returned ok boolean. -/
def run_on_start_hooks : List Hook → Bool
  | [] => true
  | h :: rest =>
    if (launch [] [] h (lifecycle_event h)).1 then run_on_start_hooks rest
    else false

/-- Registration of cap hooks into one cap dict (plugin.py lines 202 to
210): every capability name of every hook gets the hook appended under the
casefolded name. -/
def register_caps (m : List (String × List CapHook)) (hs : List CapHook) :
    List (String × List CapHook) :=
  hs.foldl (fun m h => h.caps.foldl (fun m c => append_value m (casefold c) h) m) m

/-- Removal of cap hooks from one cap dict (plugin.py lines 318 to 332). -/
def unregister_caps (m : List (String × List CapHook)) (hs : List CapHook) :
    List (String × List CapHook) :=
  hs.foldl (fun m h => h.caps.foldl (fun m c => remove_value m (casefold c) h) m) m

/-- Registration of command hooks (plugin.py lines 218 to 226): an alias
already present in the commands dict keeps its current owner and the new
assignment is logged and ignored; an absent alias is bound to the hook. -/
def register_commands (cmds : List (String × CommandHook))
    (hs : List CommandHook) : List (String × CommandHook) :=
  hs.foldl (fun cmds ch =>
    ch.aliases.foldl (fun cmds al =>
      match alookup al cmds with
      | some _ => cmds
      | Option.none => cmds ++ [(al, ch)]) cmds) cmds

/-- Removal of command hooks (plugin.py lines 335 to 339): an alias entry is
deleted only when it still maps to this very hook, so an entry won by
another plugin survives. -/
def unregister_commands (cmds : List (String × CommandHook))
    (hs : List CommandHook) : List (String × CommandHook) :=
  hs.foldl (fun cmds ch =>
    ch.aliases.foldl (fun cmds al =>
      match alookup al cmds with
      | some h => if h = ch then adel al cmds else cmds
      | Option.none => cmds) cmds) cmds

/-- Registration of raw hooks (plugin.py lines 229 to 238): a catch-all hook
goes only onto the catch-all list; otherwise the hook is appended under each
of its trigger tokens.  Returns the new (raw_triggers, catch_all_triggers)
pair. -/
def register_raw_hooks (rt : List (String × List RawHook)) (ca : List RawHook)
    (hs : List RawHook) : List (String × List RawHook) × List RawHook :=
  hs.foldl (fun acc h =>
    if h.is_catch_all then (acc.1, acc.2 ++ [h])
    else (h.triggers.foldl (fun m t => append_value m t h) acc.1, acc.2))
    (rt, ca)

/-- Removal of raw hooks (plugin.py lines 342 to 350), symmetric to
registration: a catch-all hook is removed only from the catch-all list. -/
def unregister_raw_hooks (rt : List (String × List RawHook))
    (ca : List RawHook) (hs : List RawHook) :
    List (String × List RawHook) × List RawHook :=
  hs.foldl (fun acc h =>
    if h.is_catch_all then (acc.1, acc.2.erase h)
    else (h.triggers.foldl (fun m t => remove_value m t h) acc.1, acc.2))
    (rt, ca)

/-- Removal of each table of the plugin from the shared metadata registry,
mirroring Plugin.unregister_tables (plugin.py lines 643 to 653). -/
def erase_list (l rem : List String) : List String :=
  rem.foldl (fun acc t => acc.erase t) l

/-- Model of load_plugin (plugin.py lines 139 to 293) from the point where
the module has imported successfully and the path was not already loaded:
the whitelist and blacklist checks, the import error path and the hot-reload
unload all abort or precede this portion without touching the claims.
Importing the module constructs its sqlalchemy Table objects on the shared
metadata; then every on_start hook runs through launch and a failure aborts
the load, unregistering the tables and leaving every index structure
untouched; on success the plugin enters the identity table and the title
lookup and every hook is registered, after which the sort stage sorts the
sieve, connect, catch-all and per-token raw lists by priority.  The cap
dicts are not among the structures the sort stage visits.  Finally the
on_start hooks are dropped from the stored record (line 293). -/
def load_plugin (st : ManagerState) (p : Plugin) : ManagerState :=
  let st1 : ManagerState := { st with tables := st.tables ++ p.tables }
  if run_on_start_hooks p.on_start_hooks then
    let st2 : ManagerState := { st1 with
      plugins := st1.plugins ++ [(p.file_path, { p with on_start_hooks := [] })],
      plugin_name_map := st1.plugin_name_map ++ [p.title] }
    let st3 : ManagerState := { st2 with
      cap_available := register_caps st2.cap_available p.cap_available_hooks,
      cap_ack := register_caps st2.cap_ack p.cap_ack_hooks }
    let st4 : ManagerState := { st3 with
      commands := register_commands st3.commands p.command_hooks }
    let rc := register_raw_hooks st4.raw_triggers st4.catch_all_triggers p.raw_hooks
    let st5 : ManagerState := { st4 with
      raw_triggers := rc.1, catch_all_triggers := rc.2 }
    let st6 : ManagerState := { st5 with
      sieves := st5.sieves ++ p.sieve_hooks,
      connect_hooks := st5.connect_hooks ++ p.connect_hooks }
    { st6 with
      sieves := py_sort BaseHook.priority st6.sieves,
      connect_hooks := py_sort BaseHook.priority st6.connect_hooks,
      catch_all_triggers := py_sort RawHook.priority st6.catch_all_triggers,
      raw_triggers := sort_values RawHook.priority st6.raw_triggers }
  else
    { st1 with tables := erase_list st1.tables p.tables }

/-- Model of unload_plugin (plugin.py lines 296 to 397) for the modelled
index structures: a path that is not loaded returns the state unchanged with
False; otherwise every hook of the plugin is removed from every structure it
was registered into, the on_stop hooks run (they do not change the
registration state and their outcome is unused), the tables are removed from
the shared metadata, the plugin leaves the identity table, and the weak
title lookup drops the title with the last owning reference. -/
def unload_plugin (st : ManagerState) (path : String) : ManagerState × Bool :=
  match alookup path st.plugins with
  | Option.none => (st, false)
  | some p =>
    let st1 : ManagerState := { st with
      cap_available := unregister_caps st.cap_available p.cap_available_hooks,
      cap_ack := unregister_caps st.cap_ack p.cap_ack_hooks }
    let st2 : ManagerState := { st1 with
      commands := unregister_commands st1.commands p.command_hooks }
    let rc := unregister_raw_hooks st2.raw_triggers st2.catch_all_triggers p.raw_hooks
    let st3 : ManagerState := { st2 with
      raw_triggers := rc.1, catch_all_triggers := rc.2 }
    let st4 : ManagerState := { st3 with
      sieves := p.sieve_hooks.foldl (fun l h => l.erase h) st3.sieves,
      connect_hooks := p.connect_hooks.foldl (fun l h => l.erase h) st3.connect_hooks }
    let st5 : ManagerState := { st4 with tables := erase_list st4.tables p.tables }
    ({ st5 with
        plugins := adel p.file_path st5.plugins,
        plugin_name_map := st5.plugin_name_map.erase p.title }, true)

/-- Key of the serializer state dict _hook_waiting_queues: the pair of the
plugin title and the function name (plugin.py line 562). -/
abbrev HookKey := String × String

/-- Control position of one single_thread invocation inside launch: before
the gate, suspended on its queued future, between the gate and its own
completion handling, or finished. -/
inductive TaskPhase where
  | start
  | waiting
  | running
  | tdone
  deriving DecidableEq

/-- State of the serializer protocol of launch (plugin.py lines 558 to 590):
hook_waiting_queues is the dict keyed by HookKey whose value is either None
(an invocation is running and no queue was materialized yet) or a queue,
embedded as the list of queued future identifiers in enqueue order; tasks
records, per invocation identifier, the key of its hook and its control
position. -/
structure SerState where
  hook_waiting_queues : List (HookKey × Option (List Nat))
  tasks : Nat → Option (HookKey × TaskPhase)

/-- Transition labels: an invocation passes the entry gate, or an invocation
that holds the key finishes _execute_hook and runs the completion code. -/
inductive SerLabel where
  | enter (i : Nat)
  | complete (i : Nat)

/-- Small-step semantics of the serializer protocol, read off launch
(plugin.py lines 558 to 590).  Entry: a key absent from the dict is set to
the None marker and the invocation proceeds to run; a key holding the None
marker gets a fresh queue holding the future of the new invocation, which
suspends; a key holding a queue gets the future appended, preserving enqueue
order.  Completion: with the marker or an empty queue the key is deleted
outright; with a waiter queued, the head future is dequeued and resolved,
which resumes exactly that waiter into the running position without it
re-reading the dict (the hand-off).  The premise that the dequeued future
belongs to the waiter that enqueued it reflects that each future is created
and awaited by exactly one launch frame. -/
inductive SerStep : SerLabel → SerState → SerState → Prop where
  | enter_absent (st : SerState) (i : Nat) (k : HookKey)
      (ht : st.tasks i = some (k, TaskPhase.start))
      (hq : alookup k st.hook_waiting_queues = Option.none) :
      SerStep (SerLabel.enter i) st
        { hook_waiting_queues := aset k Option.none st.hook_waiting_queues,
          tasks := fun j => if j = i then some (k, TaskPhase.running) else st.tasks j }
  | enter_marker (st : SerState) (i : Nat) (k : HookKey)
      (ht : st.tasks i = some (k, TaskPhase.start))
      (hq : alookup k st.hook_waiting_queues = some Option.none) :
      SerStep (SerLabel.enter i) st
        { hook_waiting_queues := aset k (some [i]) st.hook_waiting_queues,
          tasks := fun j => if j = i then some (k, TaskPhase.waiting) else st.tasks j }
  | enter_queue (st : SerState) (i : Nat) (k : HookKey) (l : List Nat)
      (ht : st.tasks i = some (k, TaskPhase.start))
      (hq : alookup k st.hook_waiting_queues = some (some l)) :
      SerStep (SerLabel.enter i) st
        { hook_waiting_queues := aset k (some (l ++ [i])) st.hook_waiting_queues,
          tasks := fun j => if j = i then some (k, TaskPhase.waiting) else st.tasks j }
  | complete_no_queue (st : SerState) (i : Nat) (k : HookKey)
      (ht : st.tasks i = some (k, TaskPhase.running))
      (hq : alookup k st.hook_waiting_queues = some Option.none) :
      SerStep (SerLabel.complete i) st
        { hook_waiting_queues := adel k st.hook_waiting_queues,
          tasks := fun j => if j = i then some (k, TaskPhase.tdone) else st.tasks j }
  | complete_empty (st : SerState) (i : Nat) (k : HookKey)
      (ht : st.tasks i = some (k, TaskPhase.running))
      (hq : alookup k st.hook_waiting_queues = some (some [])) :
      SerStep (SerLabel.complete i) st
        { hook_waiting_queues := adel k st.hook_waiting_queues,
          tasks := fun j => if j = i then some (k, TaskPhase.tdone) else st.tasks j }
  | complete_handoff (st : SerState) (i j : Nat) (k : HookKey) (l : List Nat)
      (ht : st.tasks i = some (k, TaskPhase.running))
      (hq : alookup k st.hook_waiting_queues = some (some (j :: l)))
      (hw : st.tasks j = some (k, TaskPhase.waiting)) :
      SerStep (SerLabel.complete i) st
        { hook_waiting_queues := aset k (some l) st.hook_waiting_queues,
          tasks := fun m =>
            if m = i then some (k, TaskPhase.tdone)
            else if m = j then some (k, TaskPhase.running)
            else st.tasks m }

/-- Initial serializer states: the dict is empty and every invocation is
still before the gate. -/
def SerInit (st : SerState) : Prop :=
  st.hook_waiting_queues = [] ∧
  ∀ i, st.tasks i = Option.none ∨ ∃ k, st.tasks i = some (k, TaskPhase.start)

/-- States reachable from an initial state through the protocol. -/
inductive SerReach : SerState → Prop where
  | init (st : SerState) (h : SerInit st) : SerReach st
  | step (st st' : SerState) (lab : SerLabel) (h : SerReach st)
      (hs : SerStep lab st st') : SerReach st'

/-- Inductive invariant of the serializer: dict keys are unique; per key at
most one invocation is running; a key is present in the dict exactly while
an invocation of it is running; and every materialized queue holds, without
duplicates, only futures of invocations waiting on that key. -/
def SerInv (st : SerState) : Prop :=
  ((st.hook_waiting_queues.map Prod.fst).Nodup) ∧
  (∀ i j k, st.tasks i = some (k, TaskPhase.running) →
    st.tasks j = some (k, TaskPhase.running) → i = j) ∧
  (∀ k, (∃ i, st.tasks i = some (k, TaskPhase.running)) ↔
    (alookup k st.hook_waiting_queues).isSome) ∧
  (∀ k l, alookup k st.hook_waiting_queues = some (some l) →
    (∀ j, j ∈ l → st.tasks j = some (k, TaskPhase.waiting)) ∧ l.Nodup)

/-- Invocation identifier of a serializer transition label. -/
def SerLabel.task : SerLabel → Nat
  | SerLabel.enter i => i
  | SerLabel.complete i => i

/-- Ascending priority order, the postcondition of Python list.sort with a
priority key. -/
def SortedByPri {α : Type} (pri : α → Int) (l : List α) : Prop :=
  l.Pairwise (fun a b => pri a ≤ pri b)

/-- The sublist of elements at one priority level, used to state stability:
a stable sort preserves this sublist for every level. -/
def pri_filter {α : Type} (pri : α → Int) (q : Int) (l : List α) : List α :=
  l.filter (fun a => decide (pri a = q))

/-- Sortedness of every index structure the sort stage of load_plugin
maintains in the model: the sieve list, the connect list, the catch-all raw
list and every per-token raw bucket.  The cap dicts are deliberately absent,
matching their absence from the sort stage of the source. -/
def SortedState (st : ManagerState) : Prop :=
  SortedByPri BaseHook.priority st.sieves ∧
  SortedByPri BaseHook.priority st.connect_hooks ∧
  SortedByPri RawHook.priority st.catch_all_triggers ∧
  ∀ kv ∈ st.raw_triggers, SortedByPri RawHook.priority kv.2

/- Concrete instances used by the witnesses and counterexamples below. -/

/-- Event with no attributes. -/
def empty_event : Event := { attrs := [] }

/-- Manager state directly after PluginManager.__init__. -/
def empty_state : ManagerState :=
  { plugins := [], plugin_name_map := [], commands := [], raw_triggers := [],
    catch_all_triggers := [], cap_available := [], cap_ack := [], sieves := [],
    connect_hooks := [], tables := [] }

/-- Hook whose callable requires an argument no event exposes. -/
def c1_hook : Hook :=
  { plugin_title := "example", function_name := "handler", type := "command",
    required_args := ["chan"], function := fun _ => Except.ok PyVal.none,
    threaded := true }

/-- Hook with no required arguments whose callable raises. -/
def c1_ok_hook : Hook :=
  { plugin_title := "example", function_name := "handler2", type := "command",
    required_args := [], function := fun _ => Except.error "boom",
    threaded := true }

/-- Command hook whose callable returns a string. -/
def c4_hook : Hook :=
  { plugin_title := "p", function_name := "f", type := "command",
    required_args := [], function := fun _ => Except.ok (PyVal.str "ran"),
    threaded := true }

/-- Sieve returning the reject sentinel None. -/
def c4_reject_sieve : SieveFun := fun _ _ => SieveOut.result Option.none

/-- Sieve that raises. -/
def c4_raise_sieve : SieveFun := fun _ _ => SieveOut.raises "sieve error"

/-- Post hook behaviour returning None. -/
def c4_post : PostFun := fun _ => Except.ok PyVal.none

/-- Hook whose callable raises. -/
def c7_fail_hook : Hook :=
  { plugin_title := "p", function_name := "f", type := "command",
    required_args := [], function := fun _ => Except.error "boom",
    threaded := true }

/-- An on_start hook that raises, used to abort a load. -/
def c2_hook : Hook :=
  { plugin_title := "c2", function_name := "setup", type := "on_start",
    required_args := [], function := fun _ => Except.error "db down",
    threaded := true }

/-- Command hook of the failing plugin. -/
def c2_cmd : CommandHook :=
  { plugin := "c2", function_name := "cmd", priority := 0, aliases := ["c2cmd"] }

/-- Sieve hook of the failing plugin. -/
def c2_sieve : BaseHook :=
  { plugin := "c2", function_name := "sv", priority := 0 }

/-- Plugin whose on_start hook fails; it declares a table, a command and a
sieve that must never be registered. -/
def c2_plugin : Plugin :=
  { file_path := "c2.py", title := "c2", on_start_hooks := [c2_hook],
    cap_available_hooks := [], cap_ack_hooks := [],
    command_hooks := [c2_cmd],
    raw_hooks := [], sieve_hooks := [c2_sieve],
    connect_hooks := [], tables := ["c2_table"] }

/-- An on_start hook with a required argument the lifecycle event does not
expose. -/
def c9_hook : Hook :=
  { plugin_title := "badparam", function_name := "setup", type := "on_start",
    required_args := ["chan"], function := fun _ => Except.ok (PyVal.str "x"),
    threaded := true }

/-- Plugin whose single on_start hook has a missing required parameter. -/
def c9_plugin : Plugin :=
  { file_path := "badparam.py", title := "badparam",
    on_start_hooks := [c9_hook], cap_available_hooks := [], cap_ack_hooks := [],
    command_hooks := [], raw_hooks := [], sieve_hooks := [],
    connect_hooks := [], tables := [] }

/-- Command hook of the first plugin, winning the alias foo. -/
def c5_win_cmd : CommandHook :=
  { plugin := "first", function_name := "foo", priority := 0,
    aliases := ["foo", "f"] }

/-- Command hook of the second plugin, losing the alias foo but winning
bar. -/
def c5_lose_cmd : CommandHook :=
  { plugin := "second", function_name := "foo", priority := 0,
    aliases := ["foo", "bar"] }

/-- First plugin, registering foo first. -/
def c5_first_plugin : Plugin :=
  { file_path := "a.py", title := "first", on_start_hooks := [],
    cap_available_hooks := [], cap_ack_hooks := [],
    command_hooks := [c5_win_cmd], raw_hooks := [], sieve_hooks := [],
    connect_hooks := [], tables := [] }

/-- Second plugin, attempting to register foo again. -/
def c5_second_plugin : Plugin :=
  { file_path := "b.py", title := "second", on_start_hooks := [],
    cap_available_hooks := [], cap_ack_hooks := [],
    command_hooks := [c5_lose_cmd], raw_hooks := [], sieve_hooks := [],
    connect_hooks := [], tables := [] }

/-- The second plugin as stored in the identity table after its load, with
the consumed on_start hooks dropped. -/
def c5_second_loaded : Plugin := { c5_second_plugin with on_start_hooks := [] }

/-- Capability hook with priority 5, registered first. -/
def c6_cap5 : CapHook :=
  { plugin := "p1", function_name := "f1", priority := 5, caps := ["sasl"] }

/-- Capability hook with priority 1, registered second. -/
def c6_cap1 : CapHook :=
  { plugin := "p2", function_name := "f2", priority := 1, caps := ["sasl"] }

/-- Plugin carrying the priority 5 cap hook. -/
def c6_plugin1 : Plugin :=
  { file_path := "p1.py", title := "p1", on_start_hooks := [],
    cap_available_hooks := [c6_cap5], cap_ack_hooks := [], command_hooks := [],
    raw_hooks := [], sieve_hooks := [], connect_hooks := [], tables := [] }

/-- Plugin carrying the priority 1 cap hook. -/
def c6_plugin2 : Plugin :=
  { file_path := "p2.py", title := "p2", on_start_hooks := [],
    cap_available_hooks := [c6_cap1], cap_ack_hooks := [], command_hooks := [],
    raw_hooks := [], sieve_hooks := [], connect_hooks := [], tables := [] }

/-- Sieve hooks with priorities 5, 1 and 3, in registration order. -/
def c6_b5 : BaseHook := { plugin := "q", function_name := "s5", priority := 5 }

/-- Priority 1 sieve hook. -/
def c6_b1 : BaseHook := { plugin := "q", function_name := "s1", priority := 1 }

/-- Priority 3 sieve hook. -/
def c6_b3 : BaseHook := { plugin := "q", function_name := "s3", priority := 3 }

/-- Plugin registering sieve hooks with priorities in the order 5, 1, 3. -/
def c6_plugin3 : Plugin :=
  { file_path := "q.py", title := "q", on_start_hooks := [],
    cap_available_hooks := [], cap_ack_hooks := [], command_hooks := [],
    raw_hooks := [], sieve_hooks := [c6_b5, c6_b1, c6_b3],
    connect_hooks := [], tables := [] }

/-- Raw hook whose trigger set holds the star and a literal token. -/
def c10_raw : RawHook :=
  { plugin := "r", function_name := "raw", priority := 0,
    triggers := ["*", "PRIVMSG"] }

/-- Plugin carrying the catch-all raw hook. -/
def c10_plugin : Plugin :=
  { file_path := "r.py", title := "r", on_start_hooks := [],
    cap_available_hooks := [], cap_ack_hooks := [], command_hooks := [],
    raw_hooks := [c10_raw], sieve_hooks := [], connect_hooks := [],
    tables := [] }

/-- Key of the demonstration hook in the serializer witness. -/
def demo_key : HookKey := ("plugin", "func")

/-- Two invocations of the same single_thread hook, both before the gate. -/
def demo_st0 : SerState :=
  { hook_waiting_queues := [],
    tasks := fun i =>
      if i = 0 then some (demo_key, TaskPhase.start)
      else if i = 1 then some (demo_key, TaskPhase.start) else Option.none }

/-- Invocation 0 has passed the gate on the absent key. -/
def demo_st1 : SerState :=
  { hook_waiting_queues := aset demo_key Option.none demo_st0.hook_waiting_queues,
    tasks := fun j =>
      if j = 0 then some (demo_key, TaskPhase.running) else demo_st0.tasks j }

/-- Invocation 1 found the running marker, materialized the queue and
suspended. -/
def demo_st2 : SerState :=
  { hook_waiting_queues := aset demo_key (some [1]) demo_st1.hook_waiting_queues,
    tasks := fun j =>
      if j = 1 then some (demo_key, TaskPhase.waiting) else demo_st1.tasks j }

/-- Invocation 0 completed and handed the key off to invocation 1. -/
def demo_st3 : SerState :=
  { hook_waiting_queues := aset demo_key (some []) demo_st2.hook_waiting_queues,
    tasks := fun m =>
      if m = 0 then some (demo_key, TaskPhase.tdone)
      else if m = 1 then some (demo_key, TaskPhase.running)
      else demo_st2.tasks m }

/- Association list lemmas. -/

theorem alookup_eq_none_of_not_mem {α β : Type} [DecidableEq α] (k : α)
    (m : List (α × β)) (h : k ∉ m.map Prod.fst) : alookup k m = Option.none := by
  induction m with
  | nil => rfl
  | cons hd tl ih =>
    obtain ⟨a, b⟩ := hd
    simp only [List.map_cons, List.mem_cons] at h
    push_neg at h
    have ha : ¬ a = k := fun hh => h.1 hh.symm
    simp only [alookup, if_neg ha]
    exact ih h.2

theorem alookup_aset_self {α β : Type} [DecidableEq α] (k : α) (v : β)
    (m : List (α × β)) : alookup k (aset k v m) = some v := by
  induction m with
  | nil => simp [aset, alookup]
  | cons hd tl ih =>
    obtain ⟨a, b⟩ := hd
    by_cases h : a = k
    · simp [aset, h, alookup]
    · simp only [aset, if_neg h, alookup, if_neg h]
      exact ih

theorem alookup_aset_ne {α β : Type} [DecidableEq α] (k k' : α) (v : β)
    (m : List (α × β)) (h : k' ≠ k) :
    alookup k' (aset k v m) = alookup k' m := by
  have hkk : ¬ k = k' := fun hh => h hh.symm
  induction m with
  | nil => simp [aset, alookup, hkk]
  | cons hd tl ih =>
    obtain ⟨a, b⟩ := hd
    by_cases ha : a = k
    · subst ha
      simp [aset, alookup, hkk]
    · simp only [aset, if_neg ha, alookup]
      rw [ih]

theorem alookup_adel_ne {α β : Type} [DecidableEq α] (k k' : α)
    (m : List (α × β)) (h : k' ≠ k) :
    alookup k' (adel k m) = alookup k' m := by
  have hkk : ¬ k = k' := fun hh => h hh.symm
  induction m with
  | nil => rfl
  | cons hd tl ih =>
    obtain ⟨a, b⟩ := hd
    by_cases ha : a = k
    · subst ha
      simp [adel, alookup, hkk]
    · simp only [adel, if_neg ha, alookup]
      rw [ih]

theorem mem_keys_aset {α β : Type} [DecidableEq α] (x k : α) (v : β)
    (m : List (α × β)) :
    x ∈ (aset k v m).map Prod.fst ↔ x = k ∨ x ∈ m.map Prod.fst := by
  induction m with
  | nil => simp [aset]
  | cons hd tl ih =>
    obtain ⟨a, b⟩ := hd
    by_cases h : a = k
    · subst h
      simp [aset]
    · simp only [aset, if_neg h, List.map_cons, List.mem_cons, ih]
      tauto

theorem nodup_keys_aset {α β : Type} [DecidableEq α] (k : α) (v : β)
    (m : List (α × β)) (h : (m.map Prod.fst).Nodup) :
    ((aset k v m).map Prod.fst).Nodup := by
  induction m with
  | nil => simp [aset]
  | cons hd tl ih =>
    obtain ⟨a, b⟩ := hd
    simp only [List.map_cons, List.nodup_cons] at h
    by_cases ha : a = k
    · subst ha
      simpa [aset] using h
    · simp only [aset, if_neg ha, List.map_cons, List.nodup_cons]
      refine ⟨?_, ih h.2⟩
      rw [mem_keys_aset]
      rintro (rfl | hmem)
      · exact ha rfl
      · exact h.1 hmem

theorem adel_sublist {α β : Type} [DecidableEq α] (k : α) (m : List (α × β)) :
    List.Sublist (adel k m) m := by
  induction m with
  | nil => simp [adel]
  | cons hd tl ih =>
    obtain ⟨a, b⟩ := hd
    by_cases h : a = k
    · simp only [adel, if_pos h]
      exact List.sublist_cons_self (a, b) tl
    · simp only [adel, if_neg h]
      exact ih.cons₂ (a, b)

theorem nodup_keys_adel {α β : Type} [DecidableEq α] (k : α)
    (m : List (α × β)) (h : (m.map Prod.fst).Nodup) :
    ((adel k m).map Prod.fst).Nodup :=
  List.Nodup.sublist (List.Sublist.map Prod.fst (adel_sublist k m)) h

theorem alookup_adel_self {α β : Type} [DecidableEq α] (k : α)
    (m : List (α × β)) (h : (m.map Prod.fst).Nodup) :
    alookup k (adel k m) = Option.none := by
  induction m with
  | nil => rfl
  | cons hd tl ih =>
    obtain ⟨a, b⟩ := hd
    simp only [List.map_cons, List.nodup_cons] at h
    by_cases ha : a = k
    · subst ha
      simp only [adel, if_pos rfl]
      exact alookup_eq_none_of_not_mem a tl h.1
    · simp only [adel, if_neg ha, alookup, if_neg ha]
      exact ih h.2

/- Serializer invariant. -/

theorem serInv_init (st : SerState) (h : SerInit st) : SerInv st := by
  obtain ⟨hq, ht⟩ := h
  refine ⟨?_, ?_, ?_, ?_⟩
  · rw [hq]; simp
  · intro i j k hi hj
    rcases ht i with h0 | ⟨k', h0⟩ <;> rw [h0] at hi <;> simp_all
  · intro k
    constructor
    · rintro ⟨i, hi⟩
      rcases ht i with h0 | ⟨k', h0⟩ <;> rw [h0] at hi <;> simp_all
    · rw [hq]
      intro hs
      simp [alookup] at hs
  · intro k l hl
    rw [hq] at hl
    simp [alookup] at hl

theorem serInv_step (lab : SerLabel) (st st' : SerState) (hinv : SerInv st)
    (hs : SerStep lab st st') : SerInv st' := by
  obtain ⟨ndk, mutex, link, qw⟩ := hinv
  cases hs with
  | enter_absent st i k ht hq =>
    dsimp only [SerInv]
    refine ⟨nodup_keys_aset k Option.none st.hook_waiting_queues ndk, ?_, ?_, ?_⟩
    · intro a b k₂ haa hbb
      by_cases ha : a = i
      · rw [if_pos ha] at haa
        by_cases hb : b = i
        · rw [ha, hb]
        · rw [if_neg hb] at hbb
          simp only [Option.some.injEq, Prod.mk.injEq] at haa
          exfalso
          have hrun : ∃ x, st.tasks x = some (k, TaskPhase.running) :=
            ⟨b, by rw [haa.1]; exact hbb⟩
          have hres := (link k).1 hrun
          rw [hq] at hres
          simp at hres
      · rw [if_neg ha] at haa
        by_cases hb : b = i
        · rw [if_pos hb] at hbb
          simp only [Option.some.injEq, Prod.mk.injEq] at hbb
          exfalso
          have hrun : ∃ x, st.tasks x = some (k, TaskPhase.running) :=
            ⟨a, by rw [hbb.1]; exact haa⟩
          have hres := (link k).1 hrun
          rw [hq] at hres
          simp at hres
        · rw [if_neg hb] at hbb
          exact mutex a b k₂ haa hbb
    · intro k₂
      by_cases hk : k₂ = k
      · rw [hk, alookup_aset_self]
        constructor
        · intro _; rfl
        · intro _
          exact ⟨i, by rw [if_pos rfl]⟩
      · rw [alookup_aset_ne k k₂ _ _ hk]
        constructor
        · rintro ⟨a, haa⟩
          by_cases ha : a = i
          · rw [if_pos ha] at haa
            simp only [Option.some.injEq, Prod.mk.injEq] at haa
            exact absurd haa.1.symm hk
          · rw [if_neg ha] at haa
            exact (link k₂).1 ⟨a, haa⟩
        · intro hsome
          obtain ⟨a, haa⟩ := (link k₂).2 hsome
          have ha : ¬ a = i := by
            intro hh
            rw [hh, ht] at haa
            simp at haa
          exact ⟨a, by rw [if_neg ha]; exact haa⟩
    · intro k₂ l hl
      by_cases hk : k₂ = k
      · rw [hk, alookup_aset_self] at hl
        simp at hl
      · rw [alookup_aset_ne k k₂ _ _ hk] at hl
        obtain ⟨hmem, hnd⟩ := qw k₂ l hl
        refine ⟨?_, hnd⟩
        intro m hm
        have hmi : ¬ m = i := by
          intro hh
          have hthis := hmem m hm
          rw [hh, ht] at hthis
          simp at hthis
        rw [if_neg hmi]
        exact hmem m hm
  | enter_marker st i k ht hq =>
    dsimp only [SerInv]
    refine ⟨nodup_keys_aset k (some [i]) st.hook_waiting_queues ndk, ?_, ?_, ?_⟩
    · intro a b k₂ haa hbb
      by_cases ha : a = i
      · rw [if_pos ha] at haa
        simp at haa
      · rw [if_neg ha] at haa
        by_cases hb : b = i
        · rw [if_pos hb] at hbb
          simp at hbb
        · rw [if_neg hb] at hbb
          exact mutex a b k₂ haa hbb
    · intro k₂
      by_cases hk : k₂ = k
      · rw [hk, alookup_aset_self]
        have hrun : ∃ x, st.tasks x = some (k, TaskPhase.running) :=
          (link k).2 (by rw [hq]; rfl)
        obtain ⟨a, haa⟩ := hrun
        have ha : ¬ a = i := by
          intro hh
          rw [hh, ht] at haa
          simp at haa
        constructor
        · intro _; rfl
        · intro _
          exact ⟨a, by rw [if_neg ha]; exact haa⟩
      · rw [alookup_aset_ne k k₂ _ _ hk]
        constructor
        · rintro ⟨a, haa⟩
          by_cases ha : a = i
          · rw [if_pos ha] at haa
            simp at haa
          · rw [if_neg ha] at haa
            exact (link k₂).1 ⟨a, haa⟩
        · intro hsome
          obtain ⟨a, haa⟩ := (link k₂).2 hsome
          have ha : ¬ a = i := by
            intro hh
            rw [hh, ht] at haa
            simp at haa
          exact ⟨a, by rw [if_neg ha]; exact haa⟩
    · intro k₂ l hl
      by_cases hk : k₂ = k
      · rw [hk] at hl ⊢
        rw [alookup_aset_self] at hl
        simp only [Option.some.injEq] at hl
        subst hl
        refine ⟨?_, List.nodup_singleton i⟩
        intro m hm
        simp only [List.mem_singleton] at hm
        rw [if_pos hm]
      · rw [alookup_aset_ne k k₂ _ _ hk] at hl
        obtain ⟨hmem, hnd⟩ := qw k₂ l hl
        refine ⟨?_, hnd⟩
        intro m hm
        have hmi : ¬ m = i := by
          intro hh
          have hthis := hmem m hm
          rw [hh, ht] at hthis
          simp at hthis
        rw [if_neg hmi]
        exact hmem m hm
  | enter_queue st i k l0 ht hq =>
    have hqw0 := qw k l0 hq
    have hi0 : i ∉ l0 := by
      intro hh
      have hthis := hqw0.1 i hh
      rw [ht] at hthis
      simp at hthis
    dsimp only [SerInv]
    refine ⟨nodup_keys_aset k (some (l0 ++ [i])) st.hook_waiting_queues ndk, ?_, ?_, ?_⟩
    · intro a b k₂ haa hbb
      by_cases ha : a = i
      · rw [if_pos ha] at haa
        simp at haa
      · rw [if_neg ha] at haa
        by_cases hb : b = i
        · rw [if_pos hb] at hbb
          simp at hbb
        · rw [if_neg hb] at hbb
          exact mutex a b k₂ haa hbb
    · intro k₂
      by_cases hk : k₂ = k
      · rw [hk, alookup_aset_self]
        have hrun : ∃ x, st.tasks x = some (k, TaskPhase.running) :=
          (link k).2 (by rw [hq]; rfl)
        obtain ⟨a, haa⟩ := hrun
        have ha : ¬ a = i := by
          intro hh
          rw [hh, ht] at haa
          simp at haa
        constructor
        · intro _; rfl
        · intro _
          exact ⟨a, by rw [if_neg ha]; exact haa⟩
      · rw [alookup_aset_ne k k₂ _ _ hk]
        constructor
        · rintro ⟨a, haa⟩
          by_cases ha : a = i
          · rw [if_pos ha] at haa
            simp at haa
          · rw [if_neg ha] at haa
            exact (link k₂).1 ⟨a, haa⟩
        · intro hsome
          obtain ⟨a, haa⟩ := (link k₂).2 hsome
          have ha : ¬ a = i := by
            intro hh
            rw [hh, ht] at haa
            simp at haa
          exact ⟨a, by rw [if_neg ha]; exact haa⟩
    · intro k₂ l hl
      by_cases hk : k₂ = k
      · rw [hk] at hl ⊢
        rw [alookup_aset_self] at hl
        simp only [Option.some.injEq] at hl
        subst hl
        constructor
        · intro m hm
          rcases List.mem_append.1 hm with hm0 | hm1
          · have hmi : ¬ m = i := fun hh => hi0 (hh ▸ hm0)
            rw [if_neg hmi]
            exact hqw0.1 m hm0
          · simp only [List.mem_singleton] at hm1
            rw [if_pos hm1]
        · refine List.Nodup.append hqw0.2 (List.nodup_singleton i) ?_
          intro x hx hx'
          simp only [List.mem_singleton] at hx'
          rw [hx'] at hx
          exact hi0 hx
      · rw [alookup_aset_ne k k₂ _ _ hk] at hl
        obtain ⟨hmem, hnd⟩ := qw k₂ l hl
        refine ⟨?_, hnd⟩
        intro m hm
        have hmi : ¬ m = i := by
          intro hh
          have hthis := hmem m hm
          rw [hh, ht] at hthis
          simp at hthis
        rw [if_neg hmi]
        exact hmem m hm
  | complete_no_queue st i k ht hq =>
    dsimp only [SerInv]
    refine ⟨nodup_keys_adel k st.hook_waiting_queues ndk, ?_, ?_, ?_⟩
    · intro a b k₂ haa hbb
      by_cases ha : a = i
      · rw [if_pos ha] at haa
        simp at haa
      · rw [if_neg ha] at haa
        by_cases hb : b = i
        · rw [if_pos hb] at hbb
          simp at hbb
        · rw [if_neg hb] at hbb
          exact mutex a b k₂ haa hbb
    · intro k₂
      by_cases hk : k₂ = k
      · rw [hk, alookup_adel_self k st.hook_waiting_queues ndk]
        constructor
        · rintro ⟨a, haa⟩
          by_cases ha : a = i
          · rw [if_pos ha] at haa
            simp at haa
          · rw [if_neg ha] at haa
            exact absurd (mutex a i k haa ht) ha
        · intro hsome
          simp at hsome
      · rw [alookup_adel_ne k k₂ _ hk]
        constructor
        · rintro ⟨a, haa⟩
          by_cases ha : a = i
          · rw [if_pos ha] at haa
            simp at haa
          · rw [if_neg ha] at haa
            exact (link k₂).1 ⟨a, haa⟩
        · intro hsome
          obtain ⟨a, haa⟩ := (link k₂).2 hsome
          have ha : ¬ a = i := by
            intro hh
            rw [hh, ht] at haa
            simp only [Option.some.injEq, Prod.mk.injEq] at haa
            exact hk haa.1.symm
          exact ⟨a, by rw [if_neg ha]; exact haa⟩
    · intro k₂ l hl
      by_cases hk : k₂ = k
      · rw [hk, alookup_adel_self k st.hook_waiting_queues ndk] at hl
        simp at hl
      · rw [alookup_adel_ne k k₂ _ hk] at hl
        obtain ⟨hmem, hnd⟩ := qw k₂ l hl
        refine ⟨?_, hnd⟩
        intro m hm
        have hmi : ¬ m = i := by
          intro hh
          have hthis := hmem m hm
          rw [hh, ht] at hthis
          simp at hthis
        rw [if_neg hmi]
        exact hmem m hm
  | complete_empty st i k ht hq =>
    dsimp only [SerInv]
    refine ⟨nodup_keys_adel k st.hook_waiting_queues ndk, ?_, ?_, ?_⟩
    · intro a b k₂ haa hbb
      by_cases ha : a = i
      · rw [if_pos ha] at haa
        simp at haa
      · rw [if_neg ha] at haa
        by_cases hb : b = i
        · rw [if_pos hb] at hbb
          simp at hbb
        · rw [if_neg hb] at hbb
          exact mutex a b k₂ haa hbb
    · intro k₂
      by_cases hk : k₂ = k
      · rw [hk, alookup_adel_self k st.hook_waiting_queues ndk]
        constructor
        · rintro ⟨a, haa⟩
          by_cases ha : a = i
          · rw [if_pos ha] at haa
            simp at haa
          · rw [if_neg ha] at haa
            exact absurd (mutex a i k haa ht) ha
        · intro hsome
          simp at hsome
      · rw [alookup_adel_ne k k₂ _ hk]
        constructor
        · rintro ⟨a, haa⟩
          by_cases ha : a = i
          · rw [if_pos ha] at haa
            simp at haa
          · rw [if_neg ha] at haa
            exact (link k₂).1 ⟨a, haa⟩
        · intro hsome
          obtain ⟨a, haa⟩ := (link k₂).2 hsome
          have ha : ¬ a = i := by
            intro hh
            rw [hh, ht] at haa
            simp only [Option.some.injEq, Prod.mk.injEq] at haa
            exact hk haa.1.symm
          exact ⟨a, by rw [if_neg ha]; exact haa⟩
    · intro k₂ l hl
      by_cases hk : k₂ = k
      · rw [hk, alookup_adel_self k st.hook_waiting_queues ndk] at hl
        simp at hl
      · rw [alookup_adel_ne k k₂ _ hk] at hl
        obtain ⟨hmem, hnd⟩ := qw k₂ l hl
        refine ⟨?_, hnd⟩
        intro m hm
        have hmi : ¬ m = i := by
          intro hh
          have hthis := hmem m hm
          rw [hh, ht] at hthis
          simp at hthis
        rw [if_neg hmi]
        exact hmem m hm
  | complete_handoff st i j k l0 ht hq hw =>
    have hij : ¬ i = j := by
      intro hh
      rw [hh, hw] at ht
      simp at ht
    have hqw0 := qw k (j :: l0) hq
    have hj0 : j ∉ l0 := (List.nodup_cons.mp hqw0.2).1
    dsimp only [SerInv]
    refine ⟨nodup_keys_aset k (some l0) st.hook_waiting_queues ndk, ?_, ?_, ?_⟩
    · intro a b k₂ haa hbb
      by_cases ha : a = i
      · rw [if_pos ha] at haa
        simp at haa
      · rw [if_neg ha] at haa
        by_cases ha2 : a = j
        · rw [if_pos ha2] at haa
          simp only [Option.some.injEq, Prod.mk.injEq] at haa
          by_cases hb : b = i
          · rw [if_pos hb] at hbb
            simp at hbb
          · rw [if_neg hb] at hbb
            by_cases hb2 : b = j
            · rw [ha2, hb2]
            · rw [if_neg hb2] at hbb
              exfalso
              have hbrun : st.tasks b = some (k, TaskPhase.running) := by
                rw [haa.1]; exact hbb
              exact hb (mutex b i k hbrun ht)
        · rw [if_neg ha2] at haa
          by_cases hb : b = i
          · rw [if_pos hb] at hbb
            simp at hbb
          · rw [if_neg hb] at hbb
            by_cases hb2 : b = j
            · rw [if_pos hb2] at hbb
              simp only [Option.some.injEq, Prod.mk.injEq] at hbb
              exfalso
              have harun : st.tasks a = some (k, TaskPhase.running) := by
                rw [hbb.1]; exact haa
              exact ha (mutex a i k harun ht)
            · rw [if_neg hb2] at hbb
              exact mutex a b k₂ haa hbb
    · intro k₂
      by_cases hk : k₂ = k
      · rw [hk, alookup_aset_self]
        have hji : ¬ j = i := fun hh => hij hh.symm
        constructor
        · intro _; rfl
        · intro _
          exact ⟨j, by rw [if_neg hji, if_pos rfl]⟩
      · rw [alookup_aset_ne k k₂ _ _ hk]
        constructor
        · rintro ⟨a, haa⟩
          by_cases ha : a = i
          · rw [if_pos ha] at haa
            simp at haa
          · rw [if_neg ha] at haa
            by_cases ha2 : a = j
            · rw [if_pos ha2] at haa
              simp only [Option.some.injEq, Prod.mk.injEq] at haa
              exact absurd haa.1.symm hk
            · rw [if_neg ha2] at haa
              exact (link k₂).1 ⟨a, haa⟩
        · intro hsome
          obtain ⟨a, haa⟩ := (link k₂).2 hsome
          have ha : ¬ a = i := by
            intro hh
            rw [hh, ht] at haa
            simp only [Option.some.injEq, Prod.mk.injEq] at haa
            exact hk haa.1.symm
          have ha2 : ¬ a = j := by
            intro hh
            rw [hh, hw] at haa
            simp at haa
          exact ⟨a, by rw [if_neg ha, if_neg ha2]; exact haa⟩
    · intro k₂ l hl
      by_cases hk : k₂ = k
      · rw [hk] at hl ⊢
        rw [alookup_aset_self] at hl
        simp only [Option.some.injEq] at hl
        subst hl
        refine ⟨?_, (List.nodup_cons.mp hqw0.2).2⟩
        intro m hm
        have hmi : ¬ m = i := by
          intro hh
          have hthis := hqw0.1 m (List.mem_cons_of_mem j hm)
          rw [hh, ht] at hthis
          simp at hthis
        have hmj : ¬ m = j := fun hh => hj0 (hh ▸ hm)
        rw [if_neg hmi, if_neg hmj]
        exact hqw0.1 m (List.mem_cons_of_mem j hm)
      · rw [alookup_aset_ne k k₂ _ _ hk] at hl
        obtain ⟨hmem, hnd⟩ := qw k₂ l hl
        refine ⟨?_, hnd⟩
        intro m hm
        have hmi : ¬ m = i := by
          intro hh
          have hthis := hmem m hm
          rw [hh, ht] at hthis
          simp at hthis
        have hmj : ¬ m = j := by
          intro hh
          have hthis := hmem m hm
          rw [hh, hw] at hthis
          simp only [Option.some.injEq, Prod.mk.injEq] at hthis
          exact hk hthis.1.symm
        rw [if_neg hmi, if_neg hmj]
        exact hmem m hm


theorem serInv_reach (st : SerState) (h : SerReach st) : SerInv st := by
  induction h with
  | init st h0 => exact serInv_init st h0
  | step st st' lab h0 hs ih => exact serInv_step lab st st' ih hs

/- Sorting lemmas: py_sort is an ascending stable sort. -/

theorem pri_filter_cons {α : Type} (pri : α → Int) (q : Int) (y : α)
    (l : List α) :
    pri_filter pri q (y :: l) =
      (if pri y = q then [y] else []) ++ pri_filter pri q l := by
  by_cases hy : pri y = q <;> simp [pri_filter, List.filter_cons, hy]

theorem mem_insort {α : Type} (pri : α → Int) (x a : α) (l : List α) :
    a ∈ insort pri x l ↔ a = x ∨ a ∈ l := by
  induction l with
  | nil => simp [insort]
  | cons y ys ih =>
    by_cases h : pri x < pri y
    · simp only [insort, if_pos h, List.mem_cons]
    · simp only [insort, if_neg h, List.mem_cons, ih]
      tauto

theorem sorted_insort {α : Type} (pri : α → Int) (x : α) (l : List α)
    (h : SortedByPri pri l) : SortedByPri pri (insort pri x l) := by
  induction l with
  | nil => simp [insort, SortedByPri]
  | cons y ys ih =>
    rw [SortedByPri, List.pairwise_cons] at h
    by_cases hlt : pri x < pri y
    · simp only [insort, if_pos hlt]
      rw [SortedByPri, List.pairwise_cons]
      constructor
      · intro b hb
        rcases List.mem_cons.1 hb with rfl | hb2
        · exact le_of_lt hlt
        · exact le_trans (le_of_lt hlt) (h.1 b hb2)
      · rw [List.pairwise_cons]
        exact ⟨h.1, h.2⟩
    · simp only [insort, if_neg hlt]
      rw [SortedByPri, List.pairwise_cons]
      constructor
      · intro b hb
        rcases (mem_insort pri x b ys).1 hb with rfl | hb2
        · exact le_of_not_lt hlt
        · exact h.1 b hb2
      · exact ih h.2

theorem sorted_foldl_insort {α : Type} (pri : α → Int) (l acc : List α)
    (h : SortedByPri pri acc) :
    SortedByPri pri (l.foldl (fun acc x => insort pri x acc) acc) := by
  induction l generalizing acc with
  | nil => simpa using h
  | cons x xs ih =>
    simp only [List.foldl_cons]
    exact ih (insort pri x acc) (sorted_insort pri x acc h)

theorem sorted_py_sort {α : Type} (pri : α → Int) (l : List α) :
    SortedByPri pri (py_sort pri l) :=
  sorted_foldl_insort pri l [] (by simp [SortedByPri])

theorem pri_filter_eq_nil {α : Type} (pri : α → Int) (q : Int) (l : List α) :
    (∀ a ∈ l, q < pri a) → pri_filter pri q l = [] := by
  induction l with
  | nil => intro _; rfl
  | cons y ys ih =>
    intro h
    have hy : ¬ pri y = q := by
      have hq := h y (List.mem_cons_self y ys)
      omega
    rw [pri_filter_cons, if_neg hy]
    exact ih (fun a ha => h a (List.mem_cons_of_mem y ha))

theorem pri_filter_insort {α : Type} (pri : α → Int) (q : Int) (x : α)
    (l : List α) :
    SortedByPri pri l →
    pri_filter pri q (insort pri x l) =
      pri_filter pri q l ++ (if pri x = q then [x] else []) := by
  induction l with
  | nil =>
    intro _
    by_cases hx : pri x = q <;> simp [insort, pri_filter, hx]
  | cons y ys ih =>
    intro h
    rw [SortedByPri, List.pairwise_cons] at h
    by_cases hlt : pri x < pri y
    · simp only [insort, if_pos hlt]
      by_cases hx : pri x = q
      · have hgt : ∀ a ∈ y :: ys, q < pri a := by
          intro a ha
          rcases List.mem_cons.1 ha with rfl | ha2
          · omega
          · have h1 := h.1 a ha2
            omega
        rw [pri_filter_eq_nil pri q (y :: ys) hgt, pri_filter_cons, if_pos hx,
          pri_filter_eq_nil pri q (y :: ys) hgt]
        simp
      · rw [pri_filter_cons, if_neg hx]
        simp
    · simp only [insort, if_neg hlt]
      rw [pri_filter_cons, ih h.2, pri_filter_cons, List.append_assoc]

theorem pri_filter_foldl_insort {α : Type} (pri : α → Int) (q : Int)
    (l acc : List α) :
    SortedByPri pri acc →
    pri_filter pri q (l.foldl (fun acc x => insort pri x acc) acc) =
      pri_filter pri q acc ++ pri_filter pri q l := by
  induction l generalizing acc with
  | nil => intro _; simp [pri_filter]
  | cons x xs ih =>
    intro h
    simp only [List.foldl_cons]
    rw [ih (insort pri x acc) (sorted_insort pri x acc h),
      pri_filter_insort pri q x acc h, pri_filter_cons, List.append_assoc]

theorem py_sort_pri_filter {α : Type} (pri : α → Int) (q : Int) (l : List α) :
    pri_filter pri q (py_sort pri l) = pri_filter pri q l := by
  have h := pri_filter_foldl_insort pri q l [] (by simp [SortedByPri])
  simpa [py_sort, pri_filter] using h

theorem insort_eq_append {α : Type} (pri : α → Int) (x : α) (l : List α) :
    (∀ a ∈ l, ¬ pri x < pri a) → insort pri x l = l ++ [x] := by
  induction l with
  | nil => intro _; rfl
  | cons y ys ih =>
    intro h
    have hy := h y (List.mem_cons_self y ys)
    simp only [insort, if_neg hy]
    rw [ih (fun a ha => h a (List.mem_cons_of_mem y ha))]
    rfl

theorem foldl_insort_sorted_eq {α : Type} (pri : α → Int) (l : List α) :
    ∀ acc : List α, SortedByPri pri acc →
    (∀ a ∈ acc, ∀ b ∈ l, pri a ≤ pri b) → SortedByPri pri l →
    l.foldl (fun acc x => insort pri x acc) acc = acc ++ l := by
  induction l with
  | nil => intro acc _ _ _; simp
  | cons x xs ih =>
    intro acc hacc hcross hl
    rw [SortedByPri, List.pairwise_cons] at hl
    simp only [List.foldl_cons]
    have hins : insort pri x acc = acc ++ [x] := by
      apply insort_eq_append
      intro a ha
      have h1 := hcross a ha x (List.mem_cons_self x xs)
      omega
    have hsorted : SortedByPri pri (acc ++ [x]) := by
      rw [SortedByPri, List.pairwise_append]
      refine ⟨hacc, by simp, ?_⟩
      intro a ha b hb
      simp only [List.mem_singleton] at hb
      rw [hb]
      exact hcross a ha x (List.mem_cons_self x xs)
    have hcross2 : ∀ a ∈ acc ++ [x], ∀ b ∈ xs, pri a ≤ pri b := by
      intro a ha b hb
      rcases List.mem_append.1 ha with ha0 | ha1
      · exact hcross a ha0 b (List.mem_cons_of_mem x hb)
      · simp only [List.mem_singleton] at ha1
        rw [ha1]
        exact hl.1 b hb
    rw [hins, ih (acc ++ [x]) hsorted hcross2 hl.2, List.append_assoc]
    rfl

theorem py_sort_eq_of_sorted {α : Type} (pri : α → Int) (l : List α)
    (h : SortedByPri pri l) : py_sort pri l = l := by
  have h0 := foldl_insort_sorted_eq pri l [] (by simp [SortedByPri])
    (by intro a ha; simp at ha) h
  simpa [py_sort] using h0

theorem py_sort_append_singleton {α : Type} (pri : α → Int) (x : α)
    (l : List α) :
    py_sort pri (l ++ [x]) = insort pri x (py_sort pri l) := by
  simp [py_sort, List.foldl_append]

theorem erase_insort {α : Type} [DecidableEq α] (pri : α → Int) (x : α)
    (l : List α) (h : x ∉ l) : (insort pri x l).erase x = l := by
  induction l with
  | nil => simp [insort]
  | cons y ys ih =>
    simp only [List.mem_cons, not_or] at h
    by_cases hlt : pri x < pri y
    · simp only [insort, if_pos hlt]
      rw [List.erase_cons_head]
    · simp only [insort, if_neg hlt]
      have hyx : y ≠ x := fun hh => h.1 hh.symm
      rw [List.erase_cons_tail, ih h.2]
      simp [hyx]

theorem sort_values_eq_of_sorted {α β : Type} [DecidableEq α] (pri : β → Int)
    (m : List (α × List β)) (h : ∀ kv ∈ m, SortedByPri pri kv.2) :
    sort_values pri m = m := by
  induction m with
  | nil => rfl
  | cons kv tl ih =>
    simp only [sort_values, List.map_cons]
    rw [py_sort_eq_of_sorted pri kv.2 (h kv (List.mem_cons_self kv tl))]
    have ih2 := ih (fun kv2 hkv2 => h kv2 (List.mem_cons_of_mem kv hkv2))
    simp only [sort_values] at ih2
    rw [ih2]

/- Generic fold and lookup helpers. -/

theorem foldl_preserves_mem {σ γ : Type} (P : σ → Prop) (f : σ → γ → σ)
    (l : List γ) (s : σ) (hs : P s)
    (hf : ∀ s2 x, x ∈ l → P s2 → P (f s2 x)) : P (l.foldl f s) := by
  induction l generalizing s with
  | nil => simpa using hs
  | cons x xs ih =>
    simp only [List.foldl_cons]
    exact ih (f s x) (hf s x (List.mem_cons_self x xs) hs)
      (fun s2 y hy => hf s2 y (List.mem_cons_of_mem x hy))

theorem alookup_append_left {α β : Type} [DecidableEq α] (k : α)
    (m m' : List (α × β)) (v : β) (h : alookup k m = some v) :
    alookup k (m ++ m') = some v := by
  induction m with
  | nil => simp [alookup] at h
  | cons hd tl ih =>
    obtain ⟨a, b⟩ := hd
    by_cases ha : a = k
    · simp only [alookup, if_pos ha] at h
      simp only [List.cons_append, alookup, if_pos ha]
      exact h
    · simp only [alookup, if_neg ha] at h
      simp only [List.cons_append, alookup, if_neg ha]
      exact ih h

theorem alookup_append_right {α β : Type} [DecidableEq α] (k : α)
    (m m' : List (α × β)) (h : alookup k m = Option.none) :
    alookup k (m ++ m') = alookup k m' := by
  induction m with
  | nil => rfl
  | cons hd tl ih =>
    obtain ⟨a, b⟩ := hd
    by_cases ha : a = k
    · simp only [alookup, if_pos ha] at h
      exact absurd h (by simp)
    · simp only [alookup, if_neg ha] at h
      simp only [List.cons_append, alookup, if_neg ha]
      exact ih h

theorem not_mem_keys_of_alookup_eq_none {α β : Type} [DecidableEq α] (k : α)
    (m : List (α × β)) (h : alookup k m = Option.none) :
    k ∉ m.map Prod.fst := by
  induction m with
  | nil => simp
  | cons hd tl ih =>
    obtain ⟨a, b⟩ := hd
    by_cases ha : a = k
    · simp only [alookup, if_pos ha] at h
      exact absurd h (by simp)
    · simp only [alookup, if_neg ha] at h
      simp only [List.map_cons, List.mem_cons]
      push_neg
      exact ⟨fun hh => ha hh.symm, ih h⟩

theorem erase_list_append_self (st rem : List String) :
    (∀ t ∈ rem, t ∉ st) → erase_list (st ++ rem) rem = st := by
  induction rem generalizing st with
  | nil => intro _; simp [erase_list]
  | cons t ts ih =>
    intro h
    have ht : t ∉ st := h t (List.mem_cons_self t ts)
    simp only [erase_list, List.foldl_cons]
    have h1 : (st ++ t :: ts).erase t = st ++ ts := by
      rw [List.erase_append_right _ ht, List.erase_cons_head]
    rw [h1]
    have h2 := ih st (fun a ha => h a (List.mem_cons_of_mem t ha))
    simpa [erase_list] using h2

/- Computation lemmas for load_plugin and unload_plugin. -/

theorem run_on_start_hooks_eq_false (hooks : List Hook) :
    (∃ h, h ∈ hooks ∧ (launch [] [] h (lifecycle_event h)).1 = false) →
    run_on_start_hooks hooks = false := by
  induction hooks with
  | nil =>
    rintro ⟨h, hmem, _⟩
    simp at hmem
  | cons h0 rest ih =>
    rintro ⟨h, hmem, hfail⟩
    rcases List.mem_cons.1 hmem with rfl | hmem2
    · simp only [run_on_start_hooks]
      rw [hfail]
      simp
    · simp only [run_on_start_hooks]
      by_cases hl : (launch [] [] h0 (lifecycle_event h0)).1 = true
      · rw [if_pos hl]
        exact ih ⟨h, hmem2, hfail⟩
      · rw [if_neg hl]

theorem run_on_start_hooks_eq_true (hooks : List Hook) :
    (∀ h ∈ hooks, (launch [] [] h (lifecycle_event h)).1 = true) →
    run_on_start_hooks hooks = true := by
  induction hooks with
  | nil => intro _; rfl
  | cons h0 rest ih =>
    intro h
    simp only [run_on_start_hooks]
    rw [if_pos (h h0 (List.mem_cons_self h0 rest))]
    exact ih (fun x hx => h x (List.mem_cons_of_mem h0 hx))

theorem load_plugin_of_fail (st : ManagerState) (p : Plugin)
    (hrun : run_on_start_hooks p.on_start_hooks = false)
    (hdis : ∀ t ∈ p.tables, t ∉ st.tables) :
    load_plugin st p = st := by
  simp only [load_plugin, hrun, Bool.false_eq_true, if_false]
  rw [erase_list_append_self st.tables p.tables hdis]

theorem load_plugin_commands_eq (st : ManagerState) (p : Plugin)
    (hrun : run_on_start_hooks p.on_start_hooks = true) :
    (load_plugin st p).commands = register_commands st.commands p.command_hooks := by
  simp [load_plugin, hrun]

theorem load_plugin_sieves_eq (st : ManagerState) (p : Plugin)
    (hrun : run_on_start_hooks p.on_start_hooks = true) :
    (load_plugin st p).sieves =
      py_sort BaseHook.priority (st.sieves ++ p.sieve_hooks) := by
  simp [load_plugin, hrun]

theorem load_plugin_connect_eq (st : ManagerState) (p : Plugin)
    (hrun : run_on_start_hooks p.on_start_hooks = true) :
    (load_plugin st p).connect_hooks =
      py_sort BaseHook.priority (st.connect_hooks ++ p.connect_hooks) := by
  simp [load_plugin, hrun]

theorem load_plugin_catch_all_eq (st : ManagerState) (p : Plugin)
    (hrun : run_on_start_hooks p.on_start_hooks = true) :
    (load_plugin st p).catch_all_triggers =
      py_sort RawHook.priority
        (register_raw_hooks st.raw_triggers st.catch_all_triggers p.raw_hooks).2 := by
  simp [load_plugin, hrun]

theorem load_plugin_raw_eq (st : ManagerState) (p : Plugin)
    (hrun : run_on_start_hooks p.on_start_hooks = true) :
    (load_plugin st p).raw_triggers =
      sort_values RawHook.priority
        (register_raw_hooks st.raw_triggers st.catch_all_triggers p.raw_hooks).1 := by
  simp [load_plugin, hrun]

theorem load_plugin_cap_available_eq (st : ManagerState) (p : Plugin)
    (hrun : run_on_start_hooks p.on_start_hooks = true) :
    (load_plugin st p).cap_available =
      register_caps st.cap_available p.cap_available_hooks := by
  simp [load_plugin, hrun]

theorem load_plugin_cap_ack_eq (st : ManagerState) (p : Plugin)
    (hrun : run_on_start_hooks p.on_start_hooks = true) :
    (load_plugin st p).cap_ack =
      register_caps st.cap_ack p.cap_ack_hooks := by
  simp [load_plugin, hrun]

theorem load_plugin_plugins_eq (st : ManagerState) (p : Plugin)
    (hrun : run_on_start_hooks p.on_start_hooks = true) :
    (load_plugin st p).plugins =
      st.plugins ++ [(p.file_path, { p with on_start_hooks := [] })] := by
  simp [load_plugin, hrun]

theorem load_plugin_name_map_eq (st : ManagerState) (p : Plugin)
    (hrun : run_on_start_hooks p.on_start_hooks = true) :
    (load_plugin st p).plugin_name_map = st.plugin_name_map ++ [p.title] := by
  simp [load_plugin, hrun]

theorem unload_plugin_commands_eq (st : ManagerState) (path : String)
    (p : Plugin) (hfound : alookup path st.plugins = some p) :
    (unload_plugin st path).1.commands =
      unregister_commands st.commands p.command_hooks := by
  simp [unload_plugin, hfound]

theorem unload_plugin_raw_eq (st : ManagerState) (path : String)
    (p : Plugin) (hfound : alookup path st.plugins = some p) :
    (unload_plugin st path).1.raw_triggers =
      (unregister_raw_hooks st.raw_triggers st.catch_all_triggers p.raw_hooks).1 := by
  simp [unload_plugin, hfound]

theorem unload_plugin_catch_all_eq (st : ManagerState) (path : String)
    (p : Plugin) (hfound : alookup path st.plugins = some p) :
    (unload_plugin st path).1.catch_all_triggers =
      (unregister_raw_hooks st.raw_triggers st.catch_all_triggers p.raw_hooks).2 := by
  simp [unload_plugin, hfound]

theorem load_plugin_fail_eq (st : ManagerState) (p : Plugin)
    (hrun : run_on_start_hooks p.on_start_hooks = false) :
    load_plugin st p =
      { st with tables := erase_list (st.tables ++ p.tables) p.tables } := by
  simp [load_plugin, hrun]

theorem unload_plugin_not_found (st : ManagerState) (path : String)
    (h : alookup path st.plugins = Option.none) :
    unload_plugin st path = (st, false) := by
  simp [unload_plugin, h]

theorem register_commands_preserves (cmds : List (String × CommandHook))
    (hs : List CommandHook) (al : String) (ch : CommandHook)
    (h : alookup al cmds = some ch) :
    alookup al (register_commands cmds hs) = some ch := by
  unfold register_commands
  apply foldl_preserves_mem (fun c => alookup al c = some ch) _ _ _ h
  intro c x hx hc
  apply foldl_preserves_mem (fun c2 => alookup al c2 = some ch) _ _ _ hc
  intro c2 al2 hal2 hc2
  cases hl : alookup al2 c2 with
  | some h2 => simpa [hl] using hc2
  | none =>
    simp only [hl]
    exact alookup_append_left al c2 [(al2, x)] ch hc2

theorem register_commands_nodup (cmds : List (String × CommandHook))
    (hs : List CommandHook) (h : (cmds.map Prod.fst).Nodup) :
    ((register_commands cmds hs).map Prod.fst).Nodup := by
  unfold register_commands
  apply foldl_preserves_mem (fun c => (List.map Prod.fst c).Nodup) _ _ _ h
  intro c x hx hc
  apply foldl_preserves_mem (fun c2 => (List.map Prod.fst c2).Nodup) _ _ _ hc
  intro c2 al2 hal2 hc2
  cases hl : alookup al2 c2 with
  | some h2 => simpa [hl] using hc2
  | none =>
    simp only [hl]
    rw [List.map_append]
    refine List.Nodup.append hc2 (by simp) ?_
    intro a ha hb
    simp only [List.map_cons, List.map_nil, List.mem_singleton] at hb
    rw [hb] at ha
    exact not_mem_keys_of_alookup_eq_none al2 c2 hl ha

theorem unregister_commands_preserves (cmds : List (String × CommandHook))
    (hs : List CommandHook) (al : String) (ch : CommandHook)
    (h : alookup al cmds = some ch) (hnot : ch ∉ hs) :
    alookup al (unregister_commands cmds hs) = some ch := by
  unfold unregister_commands
  apply foldl_preserves_mem (fun c => alookup al c = some ch) _ _ _ h
  intro c x hx hc
  apply foldl_preserves_mem (fun c2 => alookup al c2 = some ch) _ _ _ hc
  intro c2 al2 hal2 hc2
  cases hl : alookup al2 c2 with
  | none => simpa [hl] using hc2
  | some h2 =>
    simp only [hl]
    by_cases he : h2 = x
    · rw [if_pos he]
      have hne : al ≠ al2 := by
        intro hh
        rw [hh] at hc2
        rw [hc2] at hl
        simp only [Option.some.injEq] at hl
        exact hnot (by rw [hl, he]; exact hx)
      rw [alookup_adel_ne al2 al c2 hne]
      exact hc2
    · rw [if_neg he]
      exact hc2

theorem unregister_commands_nodup (cmds : List (String × CommandHook))
    (hs : List CommandHook) (h : (cmds.map Prod.fst).Nodup) :
    ((unregister_commands cmds hs).map Prod.fst).Nodup := by
  unfold unregister_commands
  apply foldl_preserves_mem (fun c => (List.map Prod.fst c).Nodup) _ _ _ h
  intro c x hx hc
  apply foldl_preserves_mem (fun c2 => (List.map Prod.fst c2).Nodup) _ _ _ hc
  intro c2 al2 hal2 hc2
  cases hl : alookup al2 c2 with
  | none => simpa [hl] using hc2
  | some h2 =>
    simp only [hl]
    by_cases he : h2 = x
    · rw [if_pos he]
      exact nodup_keys_adel al2 c2 hc2
    · rw [if_neg he]
      exact hc2

/- Claim theorems. -/

/-- Claim C1, counterexample: in both execution paths the scoped setup runs
before parameter binding, and when binding fails the function returns with
no teardown performed, so the claimed setup-teardown pairing on the
binding-failure exit path is false at this concrete hook and event. -/
theorem claim_C1_cex :
    EvAction.prepare_threaded ∈ (execute_hook_threaded c1_hook empty_event).2 ∧
    EvAction.close_threaded ∉ (execute_hook_threaded c1_hook empty_event).2 ∧
    EvAction.prepare_sync ∈ (execute_hook_sync c1_hook empty_event).2 ∧
    EvAction.close_sync ∉ (execute_hook_sync c1_hook empty_event).2 := by
  decide

/-- Claim C1, amended: in both execution paths setup always runs, and it
pairs with teardown exactly on the exit paths that reach the callable (a
normal return, a None return, or a raise all produce the same
setup-invoke-teardown trace); when parameter binding fails after setup, the
execution path returns None without performing teardown. -/
theorem claim_C1 (hook : Hook) (event : Event) :
    (prepare_parameters hook event = Option.none →
      (execute_hook_threaded hook event).2 = [EvAction.prepare_threaded] ∧
      (execute_hook_threaded hook event).1 = Except.ok PyVal.none ∧
      (execute_hook_sync hook event).2 = [EvAction.prepare_sync] ∧
      (execute_hook_sync hook event).1 = Except.ok PyVal.none) ∧
    (∀ ps, prepare_parameters hook event = some ps →
      (execute_hook_threaded hook event).2 =
        [EvAction.prepare_threaded, EvAction.invoke, EvAction.close_threaded] ∧
      (execute_hook_threaded hook event).1 = hook.function ps ∧
      (execute_hook_sync hook event).2 =
        [EvAction.prepare_sync, EvAction.invoke, EvAction.close_sync] ∧
      (execute_hook_sync hook event).1 = hook.function ps) := by
  constructor
  · intro h
    simp [execute_hook_threaded, execute_hook_sync, h]
  · intro ps h
    simp [execute_hook_threaded, execute_hook_sync, h]

/-- Claim C1, witness: the amended theorem evaluated on a hook with a
missing required argument and on a hook whose callable raises. -/
theorem claim_C1_witness :
    ((execute_hook_threaded c1_hook empty_event).2 =
        [EvAction.prepare_threaded] ∧
      (execute_hook_threaded c1_hook empty_event).1 = Except.ok PyVal.none ∧
      (execute_hook_sync c1_hook empty_event).2 = [EvAction.prepare_sync] ∧
      (execute_hook_sync c1_hook empty_event).1 = Except.ok PyVal.none) ∧
    ((execute_hook_threaded c1_ok_hook empty_event).2 =
        [EvAction.prepare_threaded, EvAction.invoke, EvAction.close_threaded] ∧
      (execute_hook_threaded c1_ok_hook empty_event).1 =
        c1_ok_hook.function [] ∧
      (execute_hook_sync c1_ok_hook empty_event).2 =
        [EvAction.prepare_sync, EvAction.invoke, EvAction.close_sync] ∧
      (execute_hook_sync c1_ok_hook empty_event).1 =
        c1_ok_hook.function []) :=
  ⟨(claim_C1 c1_hook empty_event).1 rfl,
    (claim_C1 c1_ok_hook empty_event).2 [] rfl⟩

/-- Claim C4: for a hook whose type is not a lifecycle type, a sieve chain
that rejects makes launch return False with no post hook firing and no step
of the hook execution path (the callable is never invoked); a sieve that
raises is treated exactly as returning the reject sentinel; and a sieve that
rejects the event it receives at any position of the chain rejects the whole
chain. -/
theorem claim_C4 :
    (∀ (sieves : List SieveFun) (posts : List PostFun) (hook : Hook)
        (event : Event),
      hook.type ∉ lifecycle_types →
      sieve_chain sieves hook event = Option.none →
      launch sieves posts hook event = (false, [], [])) ∧
    (∀ (s : SieveFun) (event : Event) (hook : Hook) (e : String),
      s event hook = SieveOut.raises e →
      sieve_one s event hook = Option.none) ∧
    (∀ (pre post : List SieveFun) (s : SieveFun) (hook : Hook)
        (event ev2 : Event),
      sieve_chain pre hook event = some ev2 →
      sieve_one s ev2 hook = Option.none →
      sieve_chain (pre ++ s :: post) hook event = Option.none) := by
  refine ⟨?_, ?_, ?_⟩
  · intro sieves posts hook event htype hchain
    simp [launch, htype, hchain]
  · intro s event hook e hs
    simp [sieve_one, hs]
  · intro pre post s hook event ev2 hchain hrej
    induction pre generalizing event with
    | nil =>
      simp only [sieve_chain, Option.some.injEq] at hchain
      subst hchain
      simp only [List.nil_append, sieve_chain, hrej]
    | cons s0 rest ih =>
      rw [List.cons_append]
      simp only [sieve_chain] at hchain ⊢
      cases h0 : sieve_one s0 event hook with
      | none =>
        rw [h0] at hchain
      | some ev3 =>
        rw [h0] at hchain
        simp only [h0]
        exact ih ev3 hchain

/-- Claim C4, witness: a rejecting sieve and a raising sieve on a concrete
command hook with a post hook registered. -/
theorem claim_C4_witness :
    launch [c4_reject_sieve] [c4_post] c4_hook empty_event = (false, [], []) ∧
    sieve_one c4_raise_sieve empty_event c4_hook = Option.none :=
  ⟨claim_C4.1 [c4_reject_sieve] [c4_post] c4_hook empty_event (by decide) rfl,
    claim_C4.2.1 c4_raise_sieve empty_event c4_hook "sieve error" rfl⟩

/-- Claim C7: once parameters bind, a raising callable is caught and
classified as (ok = False, error), with the exception surfacing in the error
field of the post hook event and None in its result field; a normal return
is classified as (ok = True, value); and launch returns exactly the ok
boolean of the classification. -/
theorem claim_C7 (posts : List PostFun) (hook : Hook) (event : Event)
    (ps : List PyVal) (hbind : prepare_parameters hook event = some ps) :
    (∀ e, hook.function ps = Except.error e →
      (internal_launch hook event).1 = (false, LaunchResult.err e) ∧
      (execute_hook posts hook event).1 = false ∧
      (execute_hook posts hook event).2.1 =
        { result := Option.none, error := some (LaunchResult.err e) }) ∧
    (∀ v, hook.function ps = Except.ok v →
      (internal_launch hook event).1 = (true, LaunchResult.value v) ∧
      (execute_hook posts hook event).1 = true ∧
      (execute_hook posts hook event).2.1 =
        { result := some (LaunchResult.value v), error := Option.none }) ∧
    (launch [] posts hook event).1 = (internal_launch hook event).1.1 := by
  refine ⟨?_, ?_, ?_⟩
  · intro e he
    by_cases ht : hook.threaded = true <;>
      simp [internal_launch, execute_hook, execute_hook_threaded,
        execute_hook_sync, hbind, he, ht]
  · intro v hv
    by_cases ht : hook.threaded = true <;>
      simp [internal_launch, execute_hook, execute_hook_threaded,
        execute_hook_sync, hbind, hv, ht]
  · by_cases htype : hook.type ∈ lifecycle_types <;>
      simp [launch, execute_hook, htype, sieve_chain]

/-- Claim C7, witness: a hook whose callable raises, evaluated through the
classification, the post event fields and launch. -/
theorem claim_C7_witness :
    (internal_launch c7_fail_hook empty_event).1 =
      (false, LaunchResult.err "boom") ∧
    (execute_hook [] c7_fail_hook empty_event).2.1 =
      { result := Option.none, error := some (LaunchResult.err "boom") } ∧
    (launch [] [] c7_fail_hook empty_event).1 =
      (internal_launch c7_fail_hook empty_event).1.1 :=
  ⟨((claim_C7 [] c7_fail_hook empty_event [] rfl).1 "boom" rfl).1,
    ((claim_C7 [] c7_fail_hook empty_event [] rfl).1 "boom" rfl).2.2,
    (claim_C7 [] c7_fail_hook empty_event [] rfl).2.2⟩

/-- Claim C8: the fired post hooks form an in-order prefix of the chain; the
break condition holds exactly for a successful return of the boolean False
(so a raising post hook never suppresses); a suppressing outcome stops the
chain right after itself and a non-suppressing one lets it continue; and a
prefix of non-suppressing outcomes passes through unchanged. -/
theorem claim_C8 :
    (∀ (posts : List PostFun) (pe : PostHookEvent),
      List.IsPrefix (run_post_hooks posts pe)
        (posts.map (fun ph => ph pe))) ∧
    (∀ r : Except String PyVal,
      is_suppress r = true ↔ r = Except.ok (PyVal.bool false)) ∧
    (∀ (e : String), is_suppress (Except.error e) = false) ∧
    (∀ (ph : PostFun) (rest : List PostFun) (pe : PostHookEvent),
      is_suppress (ph pe) = true →
      run_post_hooks (ph :: rest) pe = [ph pe]) ∧
    (∀ (ph : PostFun) (rest : List PostFun) (pe : PostHookEvent),
      is_suppress (ph pe) = false →
      run_post_hooks (ph :: rest) pe = ph pe :: run_post_hooks rest pe) ∧
    (∀ (pre rest : List PostFun) (pe : PostHookEvent),
      (∀ q ∈ pre, is_suppress (q pe) = false) →
      run_post_hooks (pre ++ rest) pe =
        pre.map (fun q => q pe) ++ run_post_hooks rest pe) := by
  refine ⟨?_, ?_, ?_, ?_, ?_, ?_⟩
  · intro posts pe
    induction posts with
    | nil => exact ⟨[], rfl⟩
    | cons ph rest ih =>
      simp only [run_post_hooks, List.map_cons]
      by_cases hs : is_suppress (ph pe) = true
      · rw [if_pos hs]
        exact ⟨List.map (fun ph2 => ph2 pe) rest, by simp⟩
      · rw [if_neg hs]
        obtain ⟨t, ht⟩ := ih
        exact ⟨t, by rw [List.cons_append, ht]⟩
  · intro r
    constructor
    · intro h
      cases r with
      | error e => simp [is_suppress] at h
      | ok v =>
        cases v with
        | none => simp [is_suppress] at h
        | bool b =>
          cases b with
          | false => rfl
          | true => simp [is_suppress] at h
        | int n => simp [is_suppress] at h
        | str s => simp [is_suppress] at h
    · intro h
      rw [h]
      rfl
  · intro e
    rfl
  · intro ph rest pe h
    simp only [run_post_hooks]
    rw [if_pos h]
  · intro ph rest pe h
    simp only [run_post_hooks]
    rw [if_neg (by rw [h]; exact Bool.false_ne_true)]
  · intro pre rest pe h
    induction pre with
    | nil => simp
    | cons q qs ih =>
      rw [List.cons_append]
      simp only [run_post_hooks, List.map_cons]
      rw [if_neg (by rw [h q (List.mem_cons_self q qs)]; exact Bool.false_ne_true)]
      rw [List.cons_append, ih (fun x hx => h x (List.mem_cons_of_mem q hx))]

/-- Claim C8, witness: a chain of a raising post hook, a suppressing post
hook and a further post hook fires the first two and stops. -/
theorem claim_C8_witness :
    run_post_hooks
        [fun _ => Except.error "post boom",
         fun _ => Except.ok (PyVal.bool false),
         fun _ => Except.ok (PyVal.str "later")]
        { result := Option.none, error := Option.none } =
      [Except.error "post boom", Except.ok (PyVal.bool false)] := by
  have h1 := claim_C8.2.2.2.2.1
    (fun _ => Except.error "post boom")
    [fun _ => Except.ok (PyVal.bool false), fun _ => Except.ok (PyVal.str "later")]
    { result := Option.none, error := Option.none } rfl
  have h2 := claim_C8.2.2.2.1
    (fun _ => Except.ok (PyVal.bool false))
    [fun _ => Except.ok (PyVal.str "later")]
    { result := Option.none, error := Option.none } rfl
  rw [h1, h2]

/-- Claim C9: a required-parameter list naming an attribute the event does
not expose makes binding fail; the execution path then returns None without
invoking the callable, internal_launch classifies that as success (True,
None); an on_start hook in that situation still makes launch return True;
and a plugin whose on_start hooks all have missing required parameters loads
and registers normally. -/
theorem claim_C9 :
    (∀ (args : List String) (event : Event),
      bind_args args event = Option.none ↔
        ∃ a ∈ args, alookup a event.attrs = Option.none) ∧
    (∀ (hook : Hook) (event : Event),
      prepare_parameters hook event = Option.none →
      (internal_launch hook event).1 = (true, LaunchResult.value PyVal.none) ∧
      EvAction.invoke ∉ (internal_launch hook event).2) ∧
    (∀ (sieves : List SieveFun) (posts : List PostFun) (hook : Hook)
        (event : Event),
      prepare_parameters hook event = Option.none →
      hook.type = "on_start" →
      (launch sieves posts hook event).1 = true) ∧
    (∀ (st : ManagerState) (p : Plugin),
      (∀ h ∈ p.on_start_hooks,
        prepare_parameters h (lifecycle_event h) = Option.none) →
      (load_plugin st p).plugin_name_map =
          st.plugin_name_map ++ [p.title] ∧
        p.title ∈ (load_plugin st p).plugin_name_map) := by
  refine ⟨?_, ?_, ?_, ?_⟩
  · intro args event
    induction args with
    | nil => simp [bind_args]
    | cons a rest ih =>
      simp only [bind_args]
      cases hl : alookup a event.attrs with
      | none =>
        constructor
        · intro _
          exact ⟨a, List.mem_cons_self a rest, hl⟩
        · intro _
          rfl
      | some v =>
        cases hb : bind_args rest event with
        | none =>
          constructor
          · intro _
            obtain ⟨x, hx, hlx⟩ := ih.1 hb
            exact ⟨x, List.mem_cons_of_mem a hx, hlx⟩
          · intro _
            rfl
        | some ps =>
          constructor
          · intro h
            simp at h
          · rintro ⟨x, hx, hlx⟩
            rcases List.mem_cons.1 hx with rfl | hx2
            · rw [hl] at hlx
              simp at hlx
            · have h2 := ih.2 ⟨x, hx2, hlx⟩
              rw [hb] at h2
              simp at h2
  · intro hook event h
    by_cases ht : hook.threaded = true <;>
      constructor <;>
      simp [internal_launch, execute_hook_threaded, execute_hook_sync, h, ht]
  · intro sieves posts hook event h htype
    have hexec : (execute_hook posts hook event).1 = true := by
      by_cases ht : hook.threaded = true <;>
        simp [execute_hook, internal_launch, execute_hook_threaded,
          execute_hook_sync, h, ht]
    have hmem : hook.type ∈ lifecycle_types := by
      rw [htype]
      simp [lifecycle_types]
    simp [launch, hmem, hexec]
  · intro st p hall
    have hrun : run_on_start_hooks p.on_start_hooks = true := by
      apply run_on_start_hooks_eq_true
      intro h hmem
      have hbind := hall h hmem
      have hexec : (execute_hook [] h (lifecycle_event h)).1 = true := by
        by_cases ht : h.threaded = true <;>
          simp [execute_hook, internal_launch, execute_hook_threaded,
            execute_hook_sync, hbind, ht]
      by_cases htype : h.type ∈ lifecycle_types <;>
        simp [launch, htype, sieve_chain, hexec]
    rw [load_plugin_name_map_eq st p hrun]
    simp

/-- Claim C9, witness: an on_start hook requiring the absent attribute chan
is classified as successful and its plugin loads. -/
theorem claim_C9_witness :
    ((internal_launch c9_hook (lifecycle_event c9_hook)).1 =
        (true, LaunchResult.value PyVal.none) ∧
      EvAction.invoke ∉ (internal_launch c9_hook (lifecycle_event c9_hook)).2) ∧
    ((load_plugin empty_state c9_plugin).plugin_name_map =
        empty_state.plugin_name_map ++ [c9_plugin.title] ∧
      c9_plugin.title ∈ (load_plugin empty_state c9_plugin).plugin_name_map) :=
  ⟨claim_C9.2.1 c9_hook (lifecycle_event c9_hook) (by decide),
    claim_C9.2.2.2 empty_state c9_plugin (by
      intro h hm
      simp only [c9_plugin, List.mem_singleton] at hm
      rw [hm]
      decide)⟩

/-- Claim C2: if some on_start hook of the plugin reports failure through
the dispatch engine, the load aborts atomically: given that the freshly
imported table objects are new to the shared schema registry, the resulting
manager state is exactly the original one — the plugin is in neither the
identity table nor the title lookup, no hook reached any index structure,
and the schema registry is restored. -/
theorem claim_C2 (st : ManagerState) (p : Plugin)
    (hfail : ∃ h, h ∈ p.on_start_hooks ∧
      (launch [] [] h (lifecycle_event h)).1 = false)
    (hdis : ∀ t ∈ p.tables, t ∉ st.tables) :
    load_plugin st p = st :=
  load_plugin_of_fail st p
    (run_on_start_hooks_eq_false p.on_start_hooks hfail) hdis

/-- Claim C2, witness: a plugin whose on_start hook raises, declaring a
table, a command and a sieve, loads into the empty manager and leaves it
exactly empty. -/
theorem claim_C2_witness : load_plugin empty_state c2_plugin = empty_state :=
  claim_C2 empty_state c2_plugin
    ⟨c2_hook, List.mem_cons_self c2_hook [], by decide⟩
    (by decide)

/-- Claim C5: the commands index keeps unique alias keys across load and
unload (at most one owning hook per alias); the first registrant wins, since
an existing alias binding survives any later load unchanged; and unload
deletes an alias binding only when it is the unloaded plugin own hook, so
unloading a plugin that lost an alias never deletes the winning binding. -/
theorem claim_C5 :
    (∀ (st : ManagerState) (p : Plugin),
      ((st.commands.map Prod.fst).Nodup) →
      (((load_plugin st p).commands.map Prod.fst).Nodup)) ∧
    (∀ (st : ManagerState) (path : String),
      ((st.commands.map Prod.fst).Nodup) →
      ((((unload_plugin st path).1.commands.map Prod.fst).Nodup))) ∧
    (∀ (st : ManagerState) (p : Plugin) (al : String) (ch : CommandHook),
      alookup al st.commands = some ch →
      alookup al (load_plugin st p).commands = some ch) ∧
    (∀ (st : ManagerState) (path : String) (p : Plugin) (al : String)
        (ch : CommandHook),
      alookup path st.plugins = some p →
      alookup al st.commands = some ch →
      ch ∉ p.command_hooks →
      alookup al (unload_plugin st path).1.commands = some ch) := by
  refine ⟨?_, ?_, ?_, ?_⟩
  · intro st p h
    by_cases hrun : run_on_start_hooks p.on_start_hooks = true
    · rw [load_plugin_commands_eq st p hrun]
      exact register_commands_nodup st.commands p.command_hooks h
    · simp only [Bool.not_eq_true] at hrun
      rw [load_plugin_fail_eq st p hrun]
      exact h
  · intro st path h
    cases hfound : alookup path st.plugins with
    | none =>
      rw [unload_plugin_not_found st path hfound]
      exact h
    | some p =>
      rw [unload_plugin_commands_eq st path p hfound]
      exact unregister_commands_nodup st.commands p.command_hooks h
  · intro st p al ch h
    by_cases hrun : run_on_start_hooks p.on_start_hooks = true
    · rw [load_plugin_commands_eq st p hrun]
      exact register_commands_preserves st.commands p.command_hooks al ch h
    · simp only [Bool.not_eq_true] at hrun
      rw [load_plugin_fail_eq st p hrun]
      exact h
  · intro st path p al ch hfound h hnot
    rw [unload_plugin_commands_eq st path p hfound]
    exact unregister_commands_preserves st.commands p.command_hooks al ch h hnot

/-- Claim C5, witness: two plugins both register the alias foo; after both
loads the alias still maps to the first plugin hook, and unloading the
losing second plugin leaves the winning binding in place. -/
theorem claim_C5_witness :
    alookup "foo" (load_plugin (load_plugin empty_state c5_first_plugin)
        c5_second_plugin).commands = some c5_win_cmd ∧
    alookup "foo" (unload_plugin (load_plugin (load_plugin empty_state
        c5_first_plugin) c5_second_plugin) "b.py").1.commands =
      some c5_win_cmd :=
  ⟨claim_C5.2.2.1 (load_plugin empty_state c5_first_plugin) c5_second_plugin
      "foo" c5_win_cmd (by decide),
    claim_C5.2.2.2
      (load_plugin (load_plugin empty_state c5_first_plugin) c5_second_plugin)
      "b.py" c5_second_loaded "foo" c5_win_cmd rfl (by decide) (by decide)⟩

/-- Claim C6, counterexample: two plugins register capability hooks for the
same capability with priorities 5 then 1; after both loads the capability
list still holds them in registration order 5, 1, which is not ascending by
priority, so the claimed priority sorting fails for the capability lists. -/
theorem claim_C6_cex :
    alookup "sasl" (load_plugin (load_plugin empty_state c6_plugin1)
        c6_plugin2).cap_available = some [c6_cap5, c6_cap1] ∧
    ¬ SortedByPri CapHook.priority [c6_cap5, c6_cap1] := by
  constructor
  · decide
  · intro h
    rw [SortedByPri, List.pairwise_cons] at h
    have h5 := h.1 c6_cap1 (List.mem_singleton.mpr rfl)
    simp only [c6_cap5, c6_cap1] at h5
    omega

/-- Claim C6, amended: after any load, every index structure the sort stage
visits (the sieve list, the connect list, the catch-all raw list and every
per-token raw bucket) is ascending by priority; the sort is stable, so the
per-priority sublist of the sieve list is the previous sublist followed by
the new hooks in registration order — registering priorities 5, 1, 3 yields
1, 3, 5 — while the capability dicts are excluded: they receive hooks by
pure appending in registration order and are never sorted. -/
theorem claim_C6 :
    (∀ (st : ManagerState) (p : Plugin),
      SortedState st → SortedState (load_plugin st p)) ∧
    (∀ (st : ManagerState) (p : Plugin) (q : Int),
      run_on_start_hooks p.on_start_hooks = true →
      pri_filter BaseHook.priority q (load_plugin st p).sieves =
        pri_filter BaseHook.priority q st.sieves ++
          pri_filter BaseHook.priority q p.sieve_hooks) ∧
    (∀ (st : ManagerState) (p : Plugin),
      run_on_start_hooks p.on_start_hooks = true →
      (load_plugin st p).cap_available =
          register_caps st.cap_available p.cap_available_hooks ∧
        (load_plugin st p).cap_ack =
          register_caps st.cap_ack p.cap_ack_hooks) ∧
    (load_plugin empty_state c6_plugin3).sieves = [c6_b1, c6_b3, c6_b5] := by
  refine ⟨?_, ?_, ?_, ?_⟩
  · intro st p hs
    by_cases hrun : run_on_start_hooks p.on_start_hooks = true
    · refine ⟨?_, ?_, ?_, ?_⟩
      · rw [load_plugin_sieves_eq st p hrun]
        exact sorted_py_sort _ _
      · rw [load_plugin_connect_eq st p hrun]
        exact sorted_py_sort _ _
      · rw [load_plugin_catch_all_eq st p hrun]
        exact sorted_py_sort _ _
      · intro kv hkv
        rw [load_plugin_raw_eq st p hrun] at hkv
        simp only [sort_values, List.mem_map] at hkv
        obtain ⟨kv0, _, rfl⟩ := hkv
        exact sorted_py_sort _ _
    · simp only [Bool.not_eq_true] at hrun
      rw [load_plugin_fail_eq st p hrun]
      exact hs
  · intro st p q hrun
    rw [load_plugin_sieves_eq st p hrun, py_sort_pri_filter]
    simp [pri_filter, List.filter_append]
  · intro st p hrun
    exact ⟨load_plugin_cap_available_eq st p hrun,
      load_plugin_cap_ack_eq st p hrun⟩
  · decide

/-- Claim C6, witness: the amended theorem evaluated on the concrete
plugins: sortedness after the load of the 5, 1, 3 sieve plugin, stability
of its priority 3 sublist, and pure appending of the capability hook. -/
theorem claim_C6_witness :
    SortedState (load_plugin empty_state c6_plugin3) ∧
    pri_filter BaseHook.priority 3 (load_plugin empty_state c6_plugin3).sieves =
      pri_filter BaseHook.priority 3 empty_state.sieves ++
        pri_filter BaseHook.priority 3 c6_plugin3.sieve_hooks ∧
    (load_plugin empty_state c6_plugin1).cap_available =
      register_caps empty_state.cap_available c6_plugin1.cap_available_hooks :=
  ⟨claim_C6.1 empty_state c6_plugin3
      (by refine ⟨?_, ?_, ?_, ?_⟩ <;> simp [empty_state, SortedByPri]),
    claim_C6.2.1 empty_state c6_plugin3 3 rfl,
    (claim_C6.2.2.1 empty_state c6_plugin1 rfl).1⟩

/-- Claim C10: a raw hook whose trigger set holds the star literal is
catch-all; loading its plugin indexes it solely on the catch-all list (the
per-token raw mapping is unchanged even though the trigger set also holds a
literal token) and unloading removes it solely from the catch-all list,
restoring both structures exactly. -/
theorem claim_C10 (st : ManagerState) (rh : RawHook) (p : Plugin)
    (hstar : "*" ∈ rh.triggers)
    (hraw : p.raw_hooks = [rh])
    (hrun : run_on_start_hooks p.on_start_hooks = true)
    (hsca : SortedByPri RawHook.priority st.catch_all_triggers)
    (hsrt : ∀ kv ∈ st.raw_triggers, SortedByPri RawHook.priority kv.2)
    (hnotin : rh ∉ st.catch_all_triggers)
    (hpath : alookup p.file_path st.plugins = Option.none) :
    rh.is_catch_all = true ∧
    (load_plugin st p).raw_triggers = st.raw_triggers ∧
    (load_plugin st p).catch_all_triggers =
      insort RawHook.priority rh st.catch_all_triggers ∧
    rh ∈ (load_plugin st p).catch_all_triggers ∧
    (unload_plugin (load_plugin st p) p.file_path).1.raw_triggers =
      st.raw_triggers ∧
    (unload_plugin (load_plugin st p) p.file_path).1.catch_all_triggers =
      st.catch_all_triggers := by
  have hic : rh.is_catch_all = true := by
    simp only [RawHook.is_catch_all, decide_eq_true_eq]
    exact hstar
  have hreg : register_raw_hooks st.raw_triggers st.catch_all_triggers
      p.raw_hooks = (st.raw_triggers, st.catch_all_triggers ++ [rh]) := by
    rw [hraw]
    simp [register_raw_hooks, hic]
  have hrt : (load_plugin st p).raw_triggers = st.raw_triggers := by
    rw [load_plugin_raw_eq st p hrun, hreg]
    exact sort_values_eq_of_sorted RawHook.priority st.raw_triggers hsrt
  have hca : (load_plugin st p).catch_all_triggers =
      insort RawHook.priority rh st.catch_all_triggers := by
    rw [load_plugin_catch_all_eq st p hrun, hreg, py_sort_append_singleton,
      py_sort_eq_of_sorted RawHook.priority st.catch_all_triggers hsca]
  have hfound : alookup p.file_path (load_plugin st p).plugins =
      some { p with on_start_hooks := [] } := by
    rw [load_plugin_plugins_eq st p hrun,
      alookup_append_right p.file_path st.plugins _ hpath]
    simp [alookup]
  have hunreg : unregister_raw_hooks (load_plugin st p).raw_triggers
      (load_plugin st p).catch_all_triggers
      ({ p with on_start_hooks := [] } : Plugin).raw_hooks =
      ((load_plugin st p).raw_triggers,
        (load_plugin st p).catch_all_triggers.erase rh) := by
    show unregister_raw_hooks _ _ p.raw_hooks = _
    rw [hraw]
    simp [unregister_raw_hooks, hic]
  refine ⟨hic, hrt, hca, ?_, ?_, ?_⟩
  · rw [hca]
    exact (mem_insort RawHook.priority rh rh st.catch_all_triggers).2
      (Or.inl rfl)
  · rw [unload_plugin_raw_eq (load_plugin st p) p.file_path _ hfound, hunreg]
    exact hrt
  · rw [unload_plugin_catch_all_eq (load_plugin st p) p.file_path _ hfound,
      hunreg]
    rw [hca]
    exact erase_insort RawHook.priority rh st.catch_all_triggers hnotin

/-- Claim C10, witness: a raw hook with triggers star and PRIVMSG loads into
the empty manager onto the catch-all list only and unload restores the empty
structures. -/
theorem claim_C10_witness :
    (load_plugin empty_state c10_plugin).raw_triggers =
        empty_state.raw_triggers ∧
    (load_plugin empty_state c10_plugin).catch_all_triggers =
      insort RawHook.priority c10_raw empty_state.catch_all_triggers ∧
    (unload_plugin (load_plugin empty_state c10_plugin) "r.py").1.raw_triggers =
        empty_state.raw_triggers ∧
    (unload_plugin (load_plugin empty_state c10_plugin)
        "r.py").1.catch_all_triggers = empty_state.catch_all_triggers := by
  have h := claim_C10 empty_state c10_raw c10_plugin (by decide) rfl rfl
    (by simp [empty_state, SortedByPri])
    (by intro kv hkv; simp [empty_state] at hkv)
    (by simp [empty_state])
    rfl
  exact ⟨h.2.1, h.2.2.1, h.2.2.2.2.1, h.2.2.2.2.2⟩

/-- Claim C3: in every reachable serializer state at most one invocation per
(plugin title, function name) key is running, so like-named functions of
different plugins are independent; every transition of one key leaves the
dict entries of every other key untouched; a gate entry that finds a queue
appends its future at the tail, and a completion that finds a waiter
dequeues exactly the head and resumes it directly into the running position
(the FIFO hand-off, with no re-check of the absent path); and a completion
that finds the marker or an empty queue removes the per-key state
entirely. -/
theorem claim_C3 :
    (∀ st : SerState, SerReach st → ∀ i j k,
      st.tasks i = some (k, TaskPhase.running) →
      st.tasks j = some (k, TaskPhase.running) → i = j) ∧
    (∀ (lab : SerLabel) (st st' : SerState) (k : HookKey) (ph : TaskPhase),
      SerStep lab st st' →
      st.tasks lab.task = some (k, ph) →
      ∀ k2, k2 ≠ k →
        alookup k2 st'.hook_waiting_queues =
          alookup k2 st.hook_waiting_queues) ∧
    (∀ (st st' : SerState) (i : Nat) (k : HookKey) (l : List Nat),
      SerStep (SerLabel.enter i) st st' →
      st.tasks i = some (k, TaskPhase.start) →
      alookup k st.hook_waiting_queues = some (some l) →
      alookup k st'.hook_waiting_queues = some (some (l ++ [i]))) ∧
    (∀ (st st' : SerState) (i j : Nat) (k : HookKey) (l : List Nat),
      SerStep (SerLabel.complete i) st st' →
      st.tasks i = some (k, TaskPhase.running) →
      alookup k st.hook_waiting_queues = some (some (j :: l)) →
      alookup k st'.hook_waiting_queues = some (some l) ∧
        st'.tasks j = some (k, TaskPhase.running)) ∧
    (∀ (st st' : SerState) (i : Nat) (k : HookKey),
      SerReach st →
      SerStep (SerLabel.complete i) st st' →
      st.tasks i = some (k, TaskPhase.running) →
      (alookup k st.hook_waiting_queues = some Option.none ∨
        alookup k st.hook_waiting_queues = some (some [])) →
      alookup k st'.hook_waiting_queues = Option.none) := by
  refine ⟨?_, ?_, ?_, ?_, ?_⟩
  · intro st hreach i j k hi hj
    exact (serInv_reach st hreach).2.1 i j k hi hj
  · intro lab st st' k ph hstep htask k2 hk2
    cases hstep with
    | enter_absent s i kc ht hq =>
      simp only [SerLabel.task] at htask
      rw [ht] at htask
      simp only [Option.some.injEq, Prod.mk.injEq] at htask
      exact alookup_aset_ne kc k2 Option.none st.hook_waiting_queues
        (fun hh => hk2 (hh.trans htask.1))
    | enter_marker s i kc ht hq =>
      simp only [SerLabel.task] at htask
      rw [ht] at htask
      simp only [Option.some.injEq, Prod.mk.injEq] at htask
      exact alookup_aset_ne kc k2 (some [i]) st.hook_waiting_queues
        (fun hh => hk2 (hh.trans htask.1))
    | enter_queue s i kc l0 ht hq =>
      simp only [SerLabel.task] at htask
      rw [ht] at htask
      simp only [Option.some.injEq, Prod.mk.injEq] at htask
      exact alookup_aset_ne kc k2 (some (l0 ++ [i])) st.hook_waiting_queues
        (fun hh => hk2 (hh.trans htask.1))
    | complete_no_queue s i kc ht hq =>
      simp only [SerLabel.task] at htask
      rw [ht] at htask
      simp only [Option.some.injEq, Prod.mk.injEq] at htask
      exact alookup_adel_ne kc k2 st.hook_waiting_queues
        (fun hh => hk2 (hh.trans htask.1))
    | complete_empty s i kc ht hq =>
      simp only [SerLabel.task] at htask
      rw [ht] at htask
      simp only [Option.some.injEq, Prod.mk.injEq] at htask
      exact alookup_adel_ne kc k2 st.hook_waiting_queues
        (fun hh => hk2 (hh.trans htask.1))
    | complete_handoff s i jc kc l0 ht hq hw =>
      simp only [SerLabel.task] at htask
      rw [ht] at htask
      simp only [Option.some.injEq, Prod.mk.injEq] at htask
      exact alookup_aset_ne kc k2 (some l0) st.hook_waiting_queues
        (fun hh => hk2 (hh.trans htask.1))
  · intro st st' i k l hstep htask hq0
    generalize hlab : SerLabel.enter i = lab at hstep
    cases hstep with
    | enter_absent s i2 kc ht hq =>
      injection hlab with hi
      subst hi
      rw [ht] at htask
      simp only [Option.some.injEq, Prod.mk.injEq] at htask
      rw [← htask.1, hq] at hq0
      exact absurd hq0 (by simp)
    | enter_marker s i2 kc ht hq =>
      injection hlab with hi
      subst hi
      rw [ht] at htask
      simp only [Option.some.injEq, Prod.mk.injEq] at htask
      rw [← htask.1, hq] at hq0
      simp at hq0
    | enter_queue s i2 kc l0 ht hq =>
      injection hlab with hi
      subst hi
      rw [ht] at htask
      simp only [Option.some.injEq, Prod.mk.injEq] at htask
      rw [← htask.1, hq] at hq0
      simp only [Option.some.injEq] at hq0
      rw [← htask.1, alookup_aset_self, hq0]
    | complete_no_queue s i2 kc ht hq => simp at hlab
    | complete_empty s i2 kc ht hq => simp at hlab
    | complete_handoff s i2 jc kc l0 ht hq hw => simp at hlab
  · intro st st' i j k l hstep htask hq0
    generalize hlab : SerLabel.complete i = lab at hstep
    cases hstep with
    | enter_absent s i2 kc ht hq => simp at hlab
    | enter_marker s i2 kc ht hq => simp at hlab
    | enter_queue s i2 kc l0 ht hq => simp at hlab
    | complete_no_queue s i2 kc ht hq =>
      injection hlab with hi
      subst hi
      rw [ht] at htask
      simp only [Option.some.injEq, Prod.mk.injEq] at htask
      rw [← htask.1, hq] at hq0
      simp at hq0
    | complete_empty s i2 kc ht hq =>
      injection hlab with hi
      subst hi
      rw [ht] at htask
      simp only [Option.some.injEq, Prod.mk.injEq] at htask
      rw [← htask.1, hq] at hq0
      simp at hq0
    | complete_handoff s i2 jc kc l0 ht hq hw =>
      injection hlab with hi
      subst hi
      rw [ht] at htask
      simp only [Option.some.injEq, Prod.mk.injEq] at htask
      rw [← htask.1, hq] at hq0
      simp only [Option.some.injEq, List.cons.injEq] at hq0
      have hji : jc ≠ i := by
        intro hh
        rw [hh, ht] at hw
        simp at hw
      constructor
      · rw [← htask.1, alookup_aset_self, hq0.2]
      · rw [← hq0.1]
        dsimp only
        rw [if_neg hji, if_pos rfl, htask.1]
  · intro st st' i k hreach hstep htask hq0
    have ndk := (serInv_reach st hreach).1
    generalize hlab : SerLabel.complete i = lab at hstep
    cases hstep with
    | enter_absent s i2 kc ht hq => simp at hlab
    | enter_marker s i2 kc ht hq => simp at hlab
    | enter_queue s i2 kc l0 ht hq => simp at hlab
    | complete_no_queue s i2 kc ht hq =>
      injection hlab with hi
      subst hi
      rw [ht] at htask
      simp only [Option.some.injEq, Prod.mk.injEq] at htask
      rw [← htask.1]
      exact alookup_adel_self kc st.hook_waiting_queues ndk
    | complete_empty s i2 kc ht hq =>
      injection hlab with hi
      subst hi
      rw [ht] at htask
      simp only [Option.some.injEq, Prod.mk.injEq] at htask
      rw [← htask.1]
      exact alookup_adel_self kc st.hook_waiting_queues ndk
    | complete_handoff s i2 jc kc l0 ht hq hw =>
      injection hlab with hi
      subst hi
      rw [ht] at htask
      simp only [Option.some.injEq, Prod.mk.injEq] at htask
      rw [← htask.1] at hq0
      rcases hq0 with hq0 | hq0 <;> rw [hq] at hq0 <;> simp at hq0

/-- Claim C3, witness: two invocations of the same hook; the first passes
the absent gate, the second queues, the completion of the first hands off to
the second (head dequeued, second running), and the completion of the second
with the empty queue removes the per-key state. -/
theorem claim_C3_witness :
    alookup demo_key demo_st3.hook_waiting_queues =
        some (some ([] : List Nat)) ∧
    demo_st3.tasks 1 = some (demo_key, TaskPhase.running) ∧
    alookup demo_key (adel demo_key demo_st3.hook_waiting_queues) =
      Option.none := by
  have s1 : SerStep (SerLabel.enter 0) demo_st0 demo_st1 :=
    SerStep.enter_absent demo_st0 0 demo_key rfl rfl
  have s2 : SerStep (SerLabel.enter 1) demo_st1 demo_st2 :=
    SerStep.enter_marker demo_st1 1 demo_key rfl rfl
  have s3 : SerStep (SerLabel.complete 0) demo_st2 demo_st3 :=
    SerStep.complete_handoff demo_st2 0 1 demo_key [] rfl rfl rfl
  have hinit : SerInit demo_st0 := by
    constructor
    · rfl
    · intro i
      by_cases h0 : i = 0
      · exact Or.inr ⟨demo_key, by simp [demo_st0, h0]⟩
      · by_cases h1 : i = 1
        · exact Or.inr ⟨demo_key, by simp [demo_st0, h0, h1]⟩
        · exact Or.inl (by simp [demo_st0, h0, h1])
  have hreach : SerReach demo_st3 :=
    SerReach.step demo_st2 demo_st3 (SerLabel.complete 0)
      (SerReach.step demo_st1 demo_st2 (SerLabel.enter 1)
        (SerReach.step demo_st0 demo_st1 (SerLabel.enter 0)
          (SerReach.init demo_st0 hinit) s1) s2) s3
  have h4 := claim_C3.2.2.2.1 demo_st2 demo_st3 0 1 demo_key [] s3 rfl rfl
  have s4 : SerStep (SerLabel.complete 1) demo_st3
      { hook_waiting_queues := adel demo_key demo_st3.hook_waiting_queues,
        tasks := fun j =>
          if j = 1 then some (demo_key, TaskPhase.tdone)
          else demo_st3.tasks j } :=
    SerStep.complete_empty demo_st3 1 demo_key rfl rfl
  have h5 := claim_C3.2.2.2.2 demo_st3 _ 1 demo_key hreach s4 rfl (Or.inr rfl)
  exact ⟨h4.1, h4.2, h5⟩

end CB
